import Mathlib

/-!
Verification of the request-processing pipeline of the telegram-bot-ai
repository: a shallow embedding, in Lean 4, of the text splitter and message
sender (`app/services/telegram.py`), the LLM client with its compatibility
retry (`app/services/llm.py`), and the pipeline orchestrator with its outcome
upsert (`app/api.py`), together with theorems settling the specification
claims about them.

Python strings are modelled as `List Char`; Python `None`/optional values as
`Option`; raised exceptions as `Except` results; HTTP calls as outcomes drawn
from an explicit environment.
-/

/-- Characters of a Lean string literal, as the `List Char` model of a Python string. -/
def chars (s : String) : List Char := s.data

/-- Decimal representation of a Nat, as used by Python f-string interpolation of ints. -/
def natStr (n : Nat) : List Char := (Nat.repr n).data

/-- The ASCII whitespace characters stripped by Python `str.strip()`
(`str.strip` also strips further Unicode space characters; none of the texts
involved in the claims contain any, so the ASCII set is the faithful model here). -/
def isPySpace (c : Char) : Bool :=
  c == ' ' || c == '\t' || c == '\n' || c == '\r' || c == '\x0b' || c == '\x0c'

/-- Python `str.lstrip()`. -/
def lstrip (s : List Char) : List Char := s.dropWhile isPySpace

/-- Python `str.rstrip()`. -/
def rstrip (s : List Char) : List Char := (s.reverse.dropWhile isPySpace).reverse

/-- Python `str.strip()`. -/
def pyStrip (s : List Char) : List Char := rstrip (lstrip s)

/-- Prepend a character to the first piece of a split result
(the way `str.split` accumulates characters that are not part of a separator). -/
def consHead (c : Char) : List (List Char) → List (List Char)
  | [] => [[c]]
  | u :: us => (c :: u) :: us

/-- Join pieces with a separator: the inverse of `str.split(sep)`. -/
def joinSep (sep : List Char) : List (List Char) → List Char
  | [] => []
  | [x] => x
  | x :: y :: t => x ++ sep ++ joinSep sep (y :: t)

/-- Python `str.split(sep)` on character lists, fuelled so that the recursion is
structural (each step consumes at least one character, so `fuel = s.length`
makes the fuel-exhausted arm unreachable; `splitSep` below supplies it). -/
def splitSepF (sep : List Char) : Nat → List Char → List (List Char)
  | _, [] => [[]]
  | 0, s => [s]
  | fuel + 1, c :: t =>
    if sep.isPrefixOf (c :: t) && !sep.isEmpty then
      [] :: splitSepF sep fuel ((c :: t).drop sep.length)
    else
      consHead c (splitSepF sep fuel t)

/-- Python `s.split(sep)` for a non-empty separator. -/
def splitSep (sep s : List Char) : List (List Char) := splitSepF sep s.length s

/-- The `while s: chunks.append(s[:limit]); s = s[limit:]` hard-cut loop of
`_split_text`, fuelled (each iteration drops `limit ≥ 1` characters, so
`fuel = s.length` makes the fuel-exhausted arm unreachable; with `limit = 0`
the Python loop would not terminate at all). -/
def hardCutF (limit : Nat) : Nat → List Char → List (List Char)
  | _, [] => []
  | 0, s => [s]
  | fuel + 1, c :: t => ((c :: t).take limit) :: hardCutF limit fuel ((c :: t).drop limit)

/-- `app/services/telegram.py`: `TELEGRAM_MESSAGE_LIMIT = 4096`. -/
def TELEGRAM_MESSAGE_LIMIT : Nat := 4096

/-- `app/services/telegram.py`: `TELEGRAM_SAFE_LIMIT = 3900`. -/
def TELEGRAM_SAFE_LIMIT : Nat := 3900

/-- The inner `for line in lines` loop of `_split_text`: accumulate lines into
`line_buf` while the stripped candidate fits `limit`; otherwise flush `line_buf`
and hard-cut the line; after the loop, flush a non-empty `line_buf`.
Chunks are returned in emission order. -/
def splitLines (limit : Nat) (lineBuf : List Char) : List (List Char) → List (List Char)
  | [] => if lineBuf = [] then [] else [lineBuf]
  | line :: rest =>
    let cand2 := pyStrip (lineBuf ++ (if lineBuf = [] then [] else ['\n']) ++ line)
    if cand2.length ≤ limit then
      splitLines limit cand2 rest
    else
      (if lineBuf = [] then [] else [lineBuf]) ++
        hardCutF limit line.length line ++ splitLines limit [] rest

/-- The outer `for p in parts` loop of `_split_text`: accumulate blank-line
separated parts into `buf` while the stripped candidate fits `limit`; otherwise
flush `buf`, then either emit the stripped part (if it fits) or split it by
single newlines; after the loop, flush a non-empty `buf`. -/
def splitParts (limit : Nat) (buf : List Char) : List (List Char) → List (List Char)
  | [] => if buf = [] then [] else [buf]
  | p :: rest =>
    let candidate := pyStrip (buf ++ (if buf = [] then [] else ['\n', '\n']) ++ p)
    if candidate.length ≤ limit then
      splitParts limit candidate rest
    else
      (if buf = [] then [] else [buf]) ++
        (if p.length ≤ limit then
          pyStrip p :: splitParts limit [] rest
        else
          splitLines limit [] (splitSep ['\n'] p) ++ splitParts limit [] rest)

/-- `app/services/telegram.py` `_split_text(text, limit)`: best-effort split of
long text into chunks, by blank lines, then single newlines, then hard cuts;
short text is returned as a single chunk; empty chunks are filtered out. -/
def _split_text (text : List Char) (limit : Nat) : List (List Char) :=
  if text.length ≤ limit then [text]
  else (splitParts limit [] (splitSep ['\n', '\n'] text)).filter (fun c => !c.isEmpty)

/-- `app/services/telegram.py` `class TelegramError(RuntimeError)`: it carries
only its message string (in particular, it has no `sent_parts` attribute). -/
structure TelegramError where
  message : List Char
deriving DecidableEq

/-- Outcome of one `client.post` to the Telegram sendMessage endpoint:
either an `httpx.HTTPError` or a response with a status code and a body. -/
inductive TgOutcome
  | fail (msg : List Char)
  | resp (status : Nat) (body : List Char)

/-- The JSON payload built for one sendMessage call; `parse_mode = none` models
the key being absent from the dict (it is added only when truthy). -/
structure TgPayload where
  chat_id : Int
  text : List Char
  disable_web_page_preview : Bool
  parse_mode : Option (List Char)
deriving DecidableEq

/-- Payload construction inside the `for part in chunks` loop of `send_message`:
`parse_mode` is included only when `effective_parse_mode` is truthy
(a non-`None`, non-empty string). -/
def mkTgPayload (chat_id : Int) (part : List Char) (dwpp : Bool)
    (epm : Option (List Char)) : TgPayload :=
  { chat_id := chat_id, text := part, disable_web_page_preview := dwpp,
    parse_mode := match epm with
      | some pm => if pm = [] then none else some pm
      | none => none }

/-- The `for part in chunks` loop of `send_message`: posts are issued strictly
sequentially; a transport error or a status `≥ 400` raises `TelegramError` at
once, leaving later chunks unattempted. Returns the list of payloads actually
posted, in order, and the result. The `i`-th post receives `outcomes i`. -/
def sendChunks (chat_id : Int) (dwpp : Bool) (epm : Option (List Char))
    (outcomes : Nat → TgOutcome) (i : Nat) :
    List (List Char) → List TgPayload × Except TelegramError Unit
  | [] => ([], .ok ())
  | part :: rest =>
    let payload := mkTgPayload chat_id part dwpp epm
    match outcomes i with
    | .fail msg =>
      ([payload], .error ⟨chars "Telegram request failed: " ++ msg⟩)
    | .resp status body =>
      if status ≥ 400 then
        ([payload], .error ⟨chars "Telegram error " ++ natStr status ++ chars ": " ++ body.take 2000⟩)
      else
        let r := sendChunks chat_id dwpp epm outcomes (i + 1) rest
        (payload :: r.1, r.2)

/-- `app/services/telegram.py` `send_message`: split the text with the safe
limit, drop any requested `parse_mode` when more than one chunk results, then
send the chunks sequentially. The bot token only selects the URL and is not
otherwise modelled; `outcomes` gives each successive post's outcome. -/
def send_message (bot_token : List Char) (chat_id : Int) (text : List Char)
    (parse_mode : Option (List Char)) (disable_web_page_preview : Bool)
    (outcomes : Nat → TgOutcome) : List TgPayload × Except TelegramError Unit :=
  let _ := bot_token
  let chunks := _split_text text TELEGRAM_SAFE_LIMIT
  let effective_parse_mode := if chunks.length == 1 then parse_mode else none
  sendChunks chat_id disable_web_page_preview effective_parse_mode outcomes 0 chunks

/-- `app/services/llm.py`: `_FALLBACK_MAX_COMPLETION_TOKENS_FOR_UNLIMITED = 8192`. -/
def _FALLBACK_MAX_COMPLETION_TOKENS_FOR_UNLIMITED : Int := 8192

/-- Python `"sub" in s` substring membership on character lists. -/
def containsSub (sub : List Char) : List Char → Bool
  | [] => sub.isPrefixOf []
  | c :: t => sub.isPrefixOf (c :: t) || containsSub sub t

/-- Python `s.rstrip("/")`. -/
def rstripSlashes (s : List Char) : List Char := (s.reverse.dropWhile (· == '/')).reverse

/-- `app/services/llm.py` `_chat_completions_url`: accept a base URL with or
without a trailing `/v1`. -/
def _chat_completions_url (base_url : List Char) : List Char :=
  let base := rstripSlashes base_url
  if (chars "/v1").isSuffixOf base then base ++ chars "/chat/completions"
  else base ++ chars "/v1/chat/completions"

/-- An HTTP response as the LLM client reads it: status code, body text, the
`content-type` header (empty when absent), and the value found (if any) at
`json()["choices"][0]["message"]["content"]`. -/
structure HttpResp where
  status : Nat
  text : List Char
  content_type : List Char
  jsonContent : Option (List Char)

/-- Outcome of one `client.post` of the LLM client: an `httpx.HTTPError`
or a response. -/
inductive PostOutcome
  | fail (msg : List Char)
  | resp (r : HttpResp)

/-- `app/services/llm.py` `_needs_max_completion_tokens`: retry-detection on
the first response — status must be 400 and the first 5000 characters of the
body must contain both `max_completion_tokens` and `max_tokens`. -/
def _needs_max_completion_tokens (r : HttpResp) : Bool :=
  r.status == 400 &&
    (containsSub (chars "max_completion_tokens") (r.text.take 5000) &&
      containsSub (chars "max_tokens") (r.text.take 5000))

/-- The token-limit field of a chat-completion payload: at most one of
`max_tokens` / `max_completion_tokens` is ever present. -/
inductive TokenLimit
  | max_tokens (n : Int)
  | max_completion_tokens (n : Int)
deriving DecidableEq

/-- The JSON payload of a chat-completion request (auth headers are carried
separately and do not affect any claim). `tokenLimit = none` models the absence
of any token-limit key. -/
structure ChatPayload where
  model : List Char
  messages : List (List Char × List Char)
  temperature : Rat
  tokenLimit : Option TokenLimit
deriving DecidableEq

/-- Result of `openai_chat_completion`: the payloads actually posted, in order,
and the final result (`LLMError` message or the completion text). -/
structure LLMCallResult where
  requests : List ChatPayload
  result : Except (List Char) (List Char)

/-- The Russian misconfiguration hint appended when the error body looks like an
HTML page (verbatim from `app/services/llm.py`). -/
def HTML_HINT : List Char :=
  chars " (Похоже, это HTML 404. Проверьте LLM_BASE_URL: он должен указывать на OpenAI-compatible API. Если base url уже заканчивается на /v1, уберите лишний /v1 или используйте корректный base.)"

/-- The tail of `openai_chat_completion` applied to the final response: non-2xx
statuses raise `LLMError` with a 2000-character excerpt (plus the HTML hint when
applicable); otherwise the `choices[0].message.content` field is extracted,
its absence raising `LLMError` as well. -/
def llmFinish (url : List Char) (r : HttpResp) : Except (List Char) (List Char) :=
  if r.status ≥ 400 then
    let snippet := r.text.take 2000
    let hint :=
      if containsSub (chars "text/html") r.content_type ||
          containsSub (chars "<!DOCTYPE html") snippet then HTML_HINT else []
    .error (chars "LLM error " ++ natStr r.status ++ chars " at " ++ url ++ chars ": " ++
      snippet ++ hint)
  else
    match r.jsonContent with
    | some t => .ok t
    | none => .error (chars "Unexpected LLM response format")

/-- `app/services/llm.py` `openai_chat_completion`: build the payload (system
message only when truthy; no token-limit key when `max_tokens` is `None` or
`≤ 0`), post it, and — only when `_needs_max_completion_tokens` holds of the
first response — retry exactly once with the limit renamed to
`max_completion_tokens` (substituting the fixed 8192 ceiling for an unlimited
request). `first` and `second` are the outcomes of the successive posts. -/
def openai_chat_completion (base_url : List Char) (model : List Char)
    (system : Option (List Char)) (user : List Char) (temperature : Rat)
    (max_tokens : Option Int) (first second : PostOutcome) : LLMCallResult :=
  let url := _chat_completions_url base_url
  let messages :=
    (match system with
     | some s => if s = [] then [] else [(chars "system", s)]
     | none => []) ++ [(chars "user", user)]
  let payload : ChatPayload :=
    { model := model, messages := messages, temperature := temperature,
      tokenLimit := match max_tokens with
        | some n => if n > 0 then some (.max_tokens n) else none
        | none => none }
  match first with
  | .fail msg =>
    { requests := [payload], result := .error (chars "LLM request failed: " ++ msg) }
  | .resp r =>
    if _needs_max_completion_tokens r then
      let payload2 : ChatPayload :=
        { payload with tokenLimit := some (.max_completion_tokens
            (match max_tokens with
             | some n => if n > 0 then n else _FALLBACK_MAX_COMPLETION_TOKENS_FOR_UNLIMITED
             | none => _FALLBACK_MAX_COMPLETION_TOKENS_FOR_UNLIMITED)) }
      match second with
      | .fail msg =>
        { requests := [payload, payload2],
          result := .error (chars "LLM request failed: " ++ msg) }
      | .resp r2 => { requests := [payload, payload2], result := llmFinish url r2 }
    else
      { requests := [payload], result := llmFinish url r }

/-- `app/api.py`: `FALLBACK_ERROR_TEXT` (the fixed localized fallback notice). -/
def FALLBACK_ERROR_TEXT : List Char := chars "Что-то пошло не так, попробуйте позже."

/-- A stored prompt template row (`app/models.py` `Prompt`), restricted to the
fields the pipeline reads. -/
structure PromptRow where
  system_template : Option (List Char)
  user_template : List Char
  model : List Char
  temperature : Rat
  max_tokens : Int

/-- The validated inbound payload (`app/schemas.py` `PuzzlebotAIRequest`),
restricted to the fields the pipeline reads. -/
structure PBRequest where
  prompt : Option (List Char)
  system : Option (List Char)
  prompt_id : Option (List Char)
  params : List (List Char × List Char)
  bot_api_key : List Char
  chat_id : Int
  user_id : Option Int
  send_pdf : Bool
  model : Option (List Char)
  temperature : Option Rat
  max_tokens : Option Int

/-- Modelled from the spec: `DeliveryError(message, sentParts)` of §4.2
Contract A. The revision of `app/services/telegram.py` that `app/api.py` was
written against (it imports `send_document`, passes `split=True`, and reads
`e.sent_parts`) is not present under `src/`; per the spec, the text-delivery
error carries the count of chunks sent before the failure, which
`getattr(e, "sent_parts", 0)` then reads. -/
structure DeliveryError where
  message : List Char
  sent_parts : Nat
deriving DecidableEq

/-- A delivery call actually issued by the pipeline, in order of attempt. -/
inductive DeliveryAttempt
  | document (filename : List Char) (caption : List Char)
  | message (text : List Char)
deriving DecidableEq

/-- Environment of one `_process_request` run: the prompt store, the outcomes
of the external calls (template rendering, LLM completion, PDF rendering, and
each delivery call site), and the configured settings the pipeline reads.
`.error` marks the call raising; delivery success/failure per call site. -/
structure PipelineEnv where
  store : List Char → Option PromptRow
  renderSystem : Except (List Char) (Option (List Char))
  renderUser : Except (List Char) (Option (List Char))
  llm_api_key : Option (List Char)
  llm_default_model : List Char
  llm : Except (List Char) (List Char)
  pdf : Except (List Char) (List Char)
  sendDoc : Except (List Char) Unit
  sendText : Except DeliveryError Unit
  sendNotice1 : Except (List Char) Unit
  sendNotice2 : Except (List Char) Unit
  today : List Char

/-- The arguments `_process_request` passes to `openai_chat_completion`. -/
structure CallArgs where
  model : List Char
  system : Option (List Char)
  user : List Char
  temperature : Rat
  max_tokens : Int
deriving DecidableEq

/-- Everything `_process_request` has computed when it reaches the final
persistence block: the local variables of the function, plus the trace of
store lookups and delivery attempts made on the way. -/
structure ProcResult where
  prompt_slug_for_log : List Char
  rendered_system : Option (List Char)
  rendered_user : Option (List Char)
  llm_text : Option (List Char)
  llm_ok : Bool
  tg_ok : Bool
  llm_error : Option (List Char)
  tg_error : Option (List Char)
  llmCall : Option CallArgs
  storeLookups : List (List Char)
  attempts : List DeliveryAttempt

/-- Result of the prompt-resolution stage (lines 138-166 of `app/api.py`):
either the `HTTPException` of `_get_prompt_by_slug` propagates (unknown slug),
or resolution completes with the local variables it assigned. -/
inductive ResolveOut
  | exc (slug : List Char) (msg : List Char)
  | done (slug : List Char) (rendered_system rendered_user : Option (List Char))
      (model : List Char) (temperature : Rat) (max_tokens : Int)
      (llm_error : Option (List Char)) (lookups : List (List Char))

/-- Prompt resolution: Mode A (literal `prompt`, with per-call overrides or
defaults: `model = body.model or settings.llm_default_model` is a truthiness
fallback, so a present-but-empty model override also falls back to the default,
while temperature and max_tokens use `is not None` checks), else the
missing-spec error, else Mode B (store lookup — an unknown slug raises
`404: Prompt '<slug>' not found` — followed by the two template renders, whose
failure sets `llm_error` to the render error). -/
def resolveStage (body : PBRequest) (env : PipelineEnv) : ResolveOut :=
  match body.prompt with
  | some p =>
    .done (chars "__raw__") body.system (some p)
      (match body.model with
       | some m => if m = [] then env.llm_default_model else m
       | none => env.llm_default_model)
      (match body.temperature with | some t => t | none => 0.2)
      (match body.max_tokens with | some n => n | none => 0)
      none []
  | none =>
    match body.prompt_id with
    | none =>
      .done (chars "__raw__") none none env.llm_default_model 0.2 0
        (some (chars "Either 'prompt' or 'prompt_id' must be provided")) []
    | some pid =>
      if pid = [] then
        .done (chars "__raw__") none none env.llm_default_model 0.2 0
          (some (chars "Either 'prompt' or 'prompt_id' must be provided")) []
      else
        match env.store pid with
        | none => .exc pid (chars "404: Prompt '" ++ pid ++ chars "' not found")
        | some pr =>
          match env.renderSystem with
          | .error e =>
            .done pid none none pr.model pr.temperature pr.max_tokens
              (some (chars "Prompt render error: " ++ e)) [pid]
          | .ok rs =>
            match env.renderUser with
            | .error e =>
              .done pid rs none pr.model pr.temperature pr.max_tokens
                (some (chars "Prompt render error: " ++ e)) [pid]
            | .ok ru =>
              .done pid rs (some (match ru with | some u => u | none => []))
                pr.model pr.temperature pr.max_tokens none [pid]

/-- The delivery stage of `_process_request` (lines 188-260 of `app/api.py`),
as a function of the LLM stage's outcome: the optional PDF rendering and
document delivery with fall-through to plain text, the best-effort notice when
nothing was delivered (`getattr(e, "sent_parts", 0) == 0`), and the best-effort
notice of the `elif not llm_ok` branch. Returns `tg_ok`, `tg_error` and the
trace of delivery calls issued, in order. -/
def deliveryStage (body : PBRequest) (env : PipelineEnv) (llm_ok : Bool)
    (llm_text : Option (List Char)) : Bool × Option (List Char) × List DeliveryAttempt :=
  match llm_ok, llm_text with
  | true, some t =>
    if t = [] then
      -- `llm_text` is falsy: neither the delivery branch nor the
      -- `elif not llm_ok` branch runs.
      (false, none, [])
    else
      let pdfOut : Option (List Char) × Option (List Char) :=
        if body.send_pdf then
          match env.pdf with
          | .ok b => (some b, none)
          | .error e => (none, some (chars "PDF generation error: " ++ e))
        else (none, none)
      let pdf_bytes := pdfOut.1
      let pdf_error := pdfOut.2
      let docStep : Bool × Option (List Char) × List DeliveryAttempt :=
        match pdf_bytes with
        | some b =>
          if body.send_pdf && !b.isEmpty then
            let filename := chars "DailyMind-" ++ env.today ++ chars ".pdf"
            match env.sendDoc with
            | .ok _ => (true, none, [.document filename (chars "Ваш прогноз")])
            | .error e => (false, some e, [.document filename (chars "Ваш прогноз")])
          else (false, none, [])
        | none => (false, none, [])
      let tg_ok1 := docStep.1
      let tg_error1 := docStep.2.1
      let attempts1 := docStep.2.2
      if tg_ok1 then
        (true, tg_error1, attempts1)
      else
        let tg_error2 :=
          match pdf_error, tg_error1 with
          | some pe, none => some pe
          | _, _ => tg_error1
        match env.sendText with
        | .ok _ => (true, tg_error2, attempts1 ++ [.message t])
        | .error de =>
          (false, some de.message,
            attempts1 ++ [.message t] ++
              (if de.sent_parts = 0 then [.message FALLBACK_ERROR_TEXT] else []))
  | true, none =>
    -- Unreachable when the LLM stage sets the text it reports; no branch runs.
    (false, none, [])
  | false, _ =>
    -- `elif not llm_ok`: best-effort fallback notice, its own failure swallowed.
    (false, none, [.message FALLBACK_ERROR_TEXT])

/-- `app/api.py` `_process_request`, up to (but not including) the final
persistence block: prompt resolution, the LLM call (guarded by the configured
API key), then the delivery stage, exactly as the `try` body orders them. An
unknown prompt slug raises out of the `try`, so the except branch records
`Unhandled error: ...` and no delivery is attempted. -/
def processRequest (body : PBRequest) (env : PipelineEnv) : ProcResult :=
  match resolveStage body env with
  | .exc slug msg =>
    { prompt_slug_for_log := slug
      rendered_system := none
      rendered_user := none
      llm_text := none
      llm_ok := false
      tg_ok := false
      llm_error := some (chars "Unhandled error: " ++ msg)
      tg_error := none
      llmCall := none
      storeLookups := [slug]
      attempts := [] }
  | .done slug rs ru model temperature max_tokens llm_error0 lookups =>
    let llmStep : Option CallArgs × Option (List Char) × Bool × Option (List Char) :=
      match llm_error0 with
      | some e => (none, none, false, some e)
      | none =>
        match env.llm_api_key with
        | none => (none, none, false, some (chars "LLM_API_KEY is not configured"))
        | some key =>
          if key = [] then
            (none, none, false, some (chars "LLM_API_KEY is not configured"))
          else
            let args : CallArgs :=
              { model := model, system := rs,
                user := match ru with | some u => u | none => [],
                temperature := temperature, max_tokens := max_tokens }
            match env.llm with
            | .ok t => (some args, some t, true, none)
            | .error e => (some args, none, false, some e)
    let d := deliveryStage body env llmStep.2.2.1 llmStep.2.1
    { prompt_slug_for_log := slug
      rendered_system := rs
      rendered_user := ru
      llm_text := llmStep.2.1
      llm_ok := llmStep.2.2.1
      tg_ok := d.1
      llm_error := llmStep.2.2.2
      tg_error := d.2.1
      llmCall := llmStep.1
      storeLookups := lookups
      attempts := d.2.2 }

/-- A `request_logs` row (`app/models.py` `RequestLog`), restricted to the
fields the pipeline writes; `id` is the autoincrement primary key. -/
structure Row where
  id : Nat
  request_id : List Char
  prompt_slug : List Char
  user_id : Int
  chat_id : Int
  params : List (List Char × List Char)
  rendered_system : Option (List Char)
  rendered_user : Option (List Char)
  llm_ok : Bool
  llm_error : Option (List Char)
  llm_response_text : Option (List Char)
  telegram_ok : Bool
  telegram_error : Option (List Char)
deriving DecidableEq

/-- The fields assigned by the final persistence block of `_process_request`
(lines 280-290 of `app/api.py`). -/
structure OutcomeFields where
  prompt_slug : List Char
  user_id : Int
  chat_id : Int
  params : List (List Char × List Char)
  rendered_system : Option (List Char)
  rendered_user : Option (List Char)
  llm_ok : Bool
  llm_error : Option (List Char)
  llm_response_text : Option (List Char)
  telegram_ok : Bool
  telegram_error : Option (List Char)
deriving DecidableEq

/-- Assign the outcome fields onto a row, leaving its key fields alone
(the `existing.<field> = ...` statements). -/
def applyFields (r : Row) (f : OutcomeFields) : Row :=
  { r with
    prompt_slug := f.prompt_slug
    user_id := f.user_id
    chat_id := f.chat_id
    params := f.params
    rendered_system := f.rendered_system
    rendered_user := f.rendered_user
    llm_ok := f.llm_ok
    llm_error := f.llm_error
    llm_response_text := f.llm_response_text
    telegram_ok := f.telegram_ok
    telegram_error := f.telegram_error }

/-- The outcome fields as read back off a row. -/
def fieldsOfRow (r : Row) : OutcomeFields :=
  { prompt_slug := r.prompt_slug, user_id := r.user_id, chat_id := r.chat_id,
    params := r.params, rendered_system := r.rendered_system,
    rendered_user := r.rendered_user, llm_ok := r.llm_ok, llm_error := r.llm_error,
    llm_response_text := r.llm_response_text, telegram_ok := r.telegram_ok,
    telegram_error := r.telegram_error }

/-- Largest id present in the table (0 when empty); the autoincrement key of a
fresh insert is strictly larger than every existing id. -/
def maxId (db : List Row) : Nat := db.foldl (fun acc r => max acc r.id) 0

/-- `select(RequestLog).where(request_id == rid).order_by(id.desc())` followed
by `.first()`: the matching row with the largest id, if any. -/
def latestByRid (db : List Row) (rid : List Char) : Option Row :=
  db.foldl
    (fun acc r =>
      if r.request_id = rid then
        match acc with
        | none => some r
        | some best => if best.id ≤ r.id then some r else some best
      else acc)
    none

/-- The final persistence block of `_process_request` (lines 266-291 of
`app/api.py`): update the latest existing row for `request_id` in place, or
insert a fresh row (with a fresh autoincrement id), then assign all outcome
fields and commit. -/
def upsert (db : List Row) (rid : List Char) (f : OutcomeFields) : List Row :=
  match latestByRid db rid with
  | some existing =>
    db.map (fun r => if r.id = existing.id then applyFields r f else r)
  | none =>
    db ++ [applyFields
      { id := maxId db + 1, request_id := rid, prompt_slug := f.prompt_slug,
        user_id := f.user_id, chat_id := f.chat_id, params := f.params,
        rendered_system := none, rendered_user := none, llm_ok := false,
        llm_error := none, llm_response_text := none, telegram_ok := false,
        telegram_error := none } f]

/-- The outcome fields `_process_request` persists for a finished run. -/
def outcomeOf (body : PBRequest) (res : ProcResult) : OutcomeFields :=
  { prompt_slug := res.prompt_slug_for_log,
    user_id := match body.user_id with | some u => u | none => 0,
    chat_id := body.chat_id, params := body.params,
    rendered_system := res.rendered_system, rendered_user := res.rendered_user,
    llm_ok := res.llm_ok, llm_error := res.llm_error,
    llm_response_text := res.llm_text, telegram_ok := res.tg_ok,
    telegram_error := res.tg_error }

/-- `_process_request` end to end with respect to the outcome store: run the
pipeline, then upsert its terminal outcome row. -/
def processAndPersist (db : List Row) (rid : List Char) (body : PBRequest)
    (env : PipelineEnv) : List Row :=
  upsert db rid (outcomeOf body (processRequest body env))

/-! ## Whitespace-insensitive reconstruction machinery -/

/-- `WsEmbed l t`: `t` is `l` with extra Python-whitespace characters inserted;
equivalently, `l` is obtained from `t` by deleting only whitespace characters.
This is the precise sense in which `_split_text` preserves its input: the
separators it removes and the edges it strips are all whitespace. -/
inductive WsEmbed : List Char → List Char → Prop
  | nil : WsEmbed [] []
  | cons (c : Char) {l t : List Char} : WsEmbed l t → WsEmbed (c :: l) (c :: t)
  | skip (c : Char) {l t : List Char} (h : isPySpace c = true) :
      WsEmbed l t → WsEmbed l (c :: t)

/-- Number of outcome rows recorded for a given request id. -/
def countRid (db : List Row) (rid : List Char) : Nat :=
  (db.filter (fun r => decide (r.request_id = rid))).length

/-- The buffer-flush shape shared by both loops of `_split_text`: a non-empty
buffer contributes a piece, an empty one contributes nothing. -/
def consIf (b : List Char) (l : List (List Char)) : List (List Char) :=
  if b = [] then l else b :: l

theorem wsEmbed_refl : ∀ l : List Char, WsEmbed l l
  | [] => .nil
  | c :: t => .cons c (wsEmbed_refl t)

theorem wsEmbed_nil_left {t : List Char} (h : ∀ c ∈ t, isPySpace c = true) :
    WsEmbed [] t := by
  induction t with
  | nil => exact .nil
  | cons c t ih =>
    exact .skip c (h c (by simp)) (ih fun d hd => h d (by simp [hd]))

theorem wsEmbed_nil_right {x : List Char} (h : WsEmbed x []) : x = [] := by
  cases h
  rfl

theorem wsEmbed_append {a b c d : List Char} (h1 : WsEmbed a b) (h2 : WsEmbed c d) :
    WsEmbed (a ++ c) (b ++ d) := by
  induction h1 with
  | nil => simpa using h2
  | cons e _ ih => exact .cons e ih
  | skip e he _ ih => exact .skip e he ih

theorem wsEmbed_append_inv {x : List Char} :
    ∀ {a b : List Char}, WsEmbed x (a ++ b) →
      ∃ x1 x2, x = x1 ++ x2 ∧ WsEmbed x1 a ∧ WsEmbed x2 b := by
  intro a
  induction a generalizing x with
  | nil => intro b h; exact ⟨[], x, rfl, .nil, by simpa using h⟩
  | cons c a ih =>
    intro b h
    cases h with
    | cons _ h' =>
      obtain ⟨x1, x2, hx, h1, h2⟩ := ih h'
      exact ⟨c :: x1, x2, by simp [hx], .cons c h1, h2⟩
    | skip _ hc h' =>
      obtain ⟨x1, x2, hx, h1, h2⟩ := ih h'
      exact ⟨x1, x2, hx, .skip c hc h1, h2⟩

/-! ## Facts about `str.strip` -/

theorem lstrip_decomp (s : List Char) :
    ∃ w, (∀ c ∈ w, isPySpace c = true) ∧ s = w ++ lstrip s :=
  ⟨s.takeWhile isPySpace, fun _ hc => List.mem_takeWhile_imp hc,
    (List.takeWhile_append_dropWhile ..).symm⟩

theorem rstrip_decomp (s : List Char) :
    ∃ w, (∀ c ∈ w, isPySpace c = true) ∧ s = rstrip s ++ w := by
  refine ⟨(s.reverse.takeWhile isPySpace).reverse, ?_, ?_⟩
  · intro c hc
    exact List.mem_takeWhile_imp (by simpa using hc)
  · unfold rstrip
    rw [← List.reverse_append]
    rw [List.takeWhile_append_dropWhile]
    simp

theorem pyStrip_decomp (s : List Char) :
    ∃ w1 w2, (∀ c ∈ w1, isPySpace c = true) ∧ (∀ c ∈ w2, isPySpace c = true) ∧
      s = w1 ++ pyStrip s ++ w2 := by
  obtain ⟨w1, hw1, h1⟩ := lstrip_decomp s
  obtain ⟨w2, hw2, h2⟩ := rstrip_decomp (lstrip s)
  refine ⟨w1, w2, hw1, hw2, ?_⟩
  simp only [pyStrip]
  rw [List.append_assoc, ← h2, ← h1]

theorem wsEmbed_pyStrip (s : List Char) : WsEmbed (pyStrip s) s := by
  obtain ⟨w1, w2, hw1, hw2, hs⟩ := pyStrip_decomp s
  have h := wsEmbed_append (wsEmbed_nil_left hw1)
    (wsEmbed_append (wsEmbed_refl (pyStrip s)) (wsEmbed_nil_left hw2))
  nth_rewrite 2 [hs]
  simpa using h

theorem pyStrip_length_le (s : List Char) : (pyStrip s).length ≤ s.length := by
  obtain ⟨w1, w2, _, _, hs⟩ := pyStrip_decomp s
  have hlen : s.length = w1.length + ((pyStrip s).length + w2.length) := by
    conv_lhs => rw [hs]
    simp
  omega

theorem pyStrip_nil_all_ws {s : List Char} (h : pyStrip s = []) :
    ∀ c ∈ s, isPySpace c = true := by
  obtain ⟨w1, w2, hw1, hw2, hs⟩ := pyStrip_decomp s
  rw [hs, h]
  intro c hc
  rcases (by simpa using hc : c ∈ w1 ∨ c ∈ w2) with h | h
  · exact hw1 c h
  · exact hw2 c h

/-! ## Facts about `str.split` and the hard-cut loop -/

theorem consHead_ne_nil (c : Char) (L : List (List Char)) : consHead c L ≠ [] := by
  cases L <;> simp [consHead]

theorem joinSep_consHead (sep : List Char) (c : Char) (L : List (List Char)) :
    joinSep sep (consHead c L) = c :: joinSep sep L := by
  match L with
  | [] => simp [consHead, joinSep]
  | [x] => simp [consHead, joinSep]
  | x :: y :: t => simp [consHead, joinSep]

theorem joinSep_cons_of_ne_nil (sep : List Char) {L : List (List Char)} (h : L ≠ []) :
    joinSep sep ([] :: L) = sep ++ joinSep sep L := by
  match L with
  | [] => exact absurd rfl h
  | x :: t => simp [joinSep]

theorem splitSepF_ne_nil (sep : List Char) : ∀ fuel s, splitSepF sep fuel s ≠ [] := by
  intro fuel
  induction fuel with
  | zero => intro s; cases s <;> simp [splitSepF]
  | succ n ih =>
    intro s
    cases s with
    | nil => simp [splitSepF]
    | cons c t =>
      simp only [splitSepF]
      split
      · simp
      · exact consHead_ne_nil _ _

theorem splitSepF_fuel (sep : List Char) :
    ∀ f1 f2 s, s.length ≤ f1 → s.length ≤ f2 →
      splitSepF sep f1 s = splitSepF sep f2 s := by
  intro f1
  induction f1 with
  | zero =>
    intro f2 s h1 _
    have hs : s = [] := List.eq_nil_of_length_eq_zero (Nat.le_zero.mp h1)
    subst hs
    cases f2 <;> simp [splitSepF]
  | succ n ih =>
    intro f2 s h1 h2
    cases s with
    | nil => cases f2 <;> simp [splitSepF]
    | cons c t =>
      cases f2 with
      | zero => simp at h2
      | succ m =>
        simp only [splitSepF]
        by_cases hcond : (sep.isPrefixOf (c :: t) && !sep.isEmpty) = true
        · rw [if_pos hcond, if_pos hcond]
          obtain ⟨hpre, hne⟩ := (Bool.and_eq_true _ _).mp hcond
          have hlsep : 1 ≤ sep.length := by
            cases sep with
            | nil => simp at hne
            | cons a b => simp
          have hlen : ((c :: t).drop sep.length).length ≤ n ∧
              ((c :: t).drop sep.length).length ≤ m := by
            simp only [List.length_drop, List.length_cons]
            simp only [List.length_cons] at h1 h2
            constructor <;> omega
          rw [ih _ _ hlen.1 hlen.2]
        · rw [if_neg hcond, if_neg hcond]
          have hlt : t.length ≤ n ∧ t.length ≤ m := by
            simp only [List.length_cons] at h1 h2
            constructor <;> omega
          rw [ih _ _ hlt.1 hlt.2]

theorem joinSep_splitSepF (sep : List Char) :
    ∀ fuel s, s.length ≤ fuel → joinSep sep (splitSepF sep fuel s) = s := by
  intro fuel
  induction fuel with
  | zero =>
    intro s h
    have hs : s = [] := List.eq_nil_of_length_eq_zero (Nat.le_zero.mp h)
    subst hs
    simp [splitSepF, joinSep]
  | succ n ih =>
    intro s h
    cases s with
    | nil => simp [splitSepF, joinSep]
    | cons c t =>
      simp only [splitSepF]
      by_cases hcond : (sep.isPrefixOf (c :: t) && !sep.isEmpty) = true
      · rw [if_pos hcond]
        obtain ⟨hpre, hne⟩ := (Bool.and_eq_true _ _).mp hcond
        have hlsep : 1 ≤ sep.length := by
          cases sep with
          | nil => simp at hne
          | cons a b => simp
        rw [joinSep_cons_of_ne_nil sep (splitSepF_ne_nil sep n _)]
        rw [ih _ (by
          simp only [List.length_drop, List.length_cons]
          simp only [List.length_cons] at h
          omega)]
        have hpre' : sep <+: (c :: t) := List.isPrefixOf_iff_prefix.mp hpre
        obtain ⟨r, hr⟩ := hpre'
        have hdrop : (c :: t).drop sep.length = r := by
          rw [← hr, List.drop_left]
        rw [hdrop, hr]
      · rw [if_neg hcond]
        rw [joinSep_consHead]
        rw [ih t (by simp only [List.length_cons] at h; omega)]

theorem joinSep_splitSep (sep s : List Char) : joinSep sep (splitSep sep s) = s :=
  joinSep_splitSepF sep s.length s le_rfl

theorem splitSep_ne_nil (sep s : List Char) : splitSep sep s ≠ [] :=
  splitSepF_ne_nil sep s.length s

theorem isPrefixOf_cons_false (ch c0 : Char) (sep2 t : List Char)
    (h : (ch == c0) = false) : (ch :: sep2).isPrefixOf (c0 :: t) = false := by
  simp [List.isPrefixOf, h]

theorem splitSepF_cons_not (sep : List Char) (fuel : Nat) (c : Char) (t : List Char)
    (h : (sep.isPrefixOf (c :: t) && !sep.isEmpty) = false) :
    splitSepF sep (fuel + 1) (c :: t) = consHead c (splitSepF sep fuel t) := by
  simp only [splitSepF]
  rw [if_neg (by simp [h])]

theorem splitSepF_replicate (ch c0 : Char) (sep2 : List Char) (hch : (ch == c0) = false) :
    ∀ n fuel rest u us, n + rest.length ≤ fuel →
      splitSepF (ch :: sep2) rest.length rest = u :: us →
      splitSepF (ch :: sep2) fuel (List.replicate n c0 ++ rest) =
        (List.replicate n c0 ++ u) :: us := by
  intro n
  induction n with
  | zero =>
    intro fuel rest u us hf hrest
    simp only [List.replicate_zero, List.nil_append]
    rw [splitSepF_fuel (ch :: sep2) fuel rest.length rest (by simpa using hf) le_rfl, hrest]
  | succ k ih =>
    intro fuel rest u us hf hrest
    cases fuel with
    | zero => omega
    | succ f =>
      have hshape : List.replicate (k + 1) c0 ++ rest = c0 :: (List.replicate k c0 ++ rest) := by
        simp [List.replicate_succ]
      rw [hshape]
      rw [splitSepF_cons_not _ _ _ _ (by
        simp [isPrefixOf_cons_false ch c0 sep2 _ hch])]
      rw [ih f rest u us (by omega) hrest]
      simp [consHead, List.replicate_succ]

theorem splitSep_replicate (ch c0 : Char) (sep2 : List Char) (hch : (ch == c0) = false)
    (n : Nat) (rest u : List Char) (us : List (List Char))
    (hrest : splitSep (ch :: sep2) rest = u :: us) :
    splitSep (ch :: sep2) (List.replicate n c0 ++ rest) =
      (List.replicate n c0 ++ u) :: us := by
  unfold splitSep at hrest ⊢
  exact splitSepF_replicate ch c0 sep2 hch n _ rest u us (by simp) hrest

theorem join_hardCutF (limit : Nat) : ∀ fuel s, (hardCutF limit fuel s).flatten = s := by
  intro fuel
  induction fuel with
  | zero => intro s; cases s <;> simp [hardCutF]
  | succ n ih =>
    intro s
    cases s with
    | nil => simp [hardCutF]
    | cons c t => simp [hardCutF, ih ((c :: t).drop limit)]

theorem hardCutF_bound (limit : Nat) :
    ∀ fuel s, s.length ≤ fuel * limit → ∀ u ∈ hardCutF limit fuel s, u.length ≤ limit := by
  intro fuel
  induction fuel with
  | zero =>
    intro s hs u hu
    cases s with
    | nil => simp [hardCutF] at hu
    | cons c t => simp at hs
  | succ n ih =>
    intro s hs u hu
    cases s with
    | nil => simp [hardCutF] at hu
    | cons c t =>
      simp only [hardCutF, List.mem_cons] at hu
      rcases hu with rfl | hu
      · simp [List.length_take]
      · refine ih _ ?_ u hu
        rw [Nat.succ_mul] at hs
        simp only [List.length_drop]
        omega

/-! ## Chunk-length bound of `_split_text` -/

theorem splitLines_bound (limit : Nat) (hlim : 1 ≤ limit) :
    ∀ lines lineBuf, lineBuf.length ≤ limit →
      ∀ u ∈ splitLines limit lineBuf lines, u.length ≤ limit := by
  intro lines
  induction lines with
  | nil =>
    intro lineBuf hb u hu
    simp only [splitLines] at hu
    split at hu
    · simp at hu
    · simp at hu
      subst hu
      exact hb
  | cons line rest ih =>
    intro lineBuf hb u hu
    simp only [splitLines] at hu
    by_cases hc :
        (pyStrip (lineBuf ++ (if lineBuf = [] then [] else ['\n']) ++ line)).length ≤ limit
    · rw [if_pos hc] at hu
      exact ih _ hc u hu
    · rw [if_neg hc] at hu
      simp only [List.mem_append] at hu
      rcases hu with (hu | hu) | hu
      · by_cases hbuf : lineBuf = []
        · rw [if_pos hbuf] at hu
          simp at hu
        · rw [if_neg hbuf] at hu
          simp at hu
          subst hu
          exact hb
      · exact hardCutF_bound limit _ _ (Nat.le_mul_of_pos_right _ hlim) u hu
      · exact ih [] (by simp) u hu

theorem splitParts_bound (limit : Nat) (hlim : 1 ≤ limit) :
    ∀ parts buf, buf.length ≤ limit →
      ∀ u ∈ splitParts limit buf parts, u.length ≤ limit := by
  intro parts
  induction parts with
  | nil =>
    intro buf hb u hu
    simp only [splitParts] at hu
    split at hu
    · simp at hu
    · simp at hu
      subst hu
      exact hb
  | cons p rest ih =>
    intro buf hb u hu
    simp only [splitParts] at hu
    by_cases hc :
        (pyStrip (buf ++ (if buf = [] then [] else ['\n', '\n']) ++ p)).length ≤ limit
    · rw [if_pos hc] at hu
      exact ih _ hc u hu
    · rw [if_neg hc] at hu
      simp only [List.mem_append] at hu
      rcases hu with hu | hu
      · by_cases hbuf : buf = []
        · rw [if_pos hbuf] at hu
          simp at hu
        · rw [if_neg hbuf] at hu
          simp at hu
          subst hu
          exact hb
      · by_cases hp : p.length ≤ limit
        · rw [if_pos hp] at hu
          simp only [List.mem_cons] at hu
          rcases hu with rfl | hu
          · exact le_trans (pyStrip_length_le p) hp
          · exact ih [] (by simp) u hu
        · rw [if_neg hp] at hu
          simp only [List.mem_append] at hu
          rcases hu with hu | hu
          · exact splitLines_bound limit hlim _ [] (by simp) u hu
          · exact ih [] (by simp) u hu

theorem split_text_bound (limit : Nat) (hlim : 1 ≤ limit) (text : List Char) :
    ∀ u ∈ _split_text text limit, u.length ≤ limit := by
  intro u hu
  simp only [_split_text] at hu
  split at hu
  · rename_i h
    simp at hu
    subst hu
    exact h
  · exact splitParts_bound limit hlim _ [] (by simp) u (List.mem_of_mem_filter hu)

/-! ## Whitespace-modulo reconstruction of `_split_text` -/

theorem flatten_consIf_nil (lb : List Char) : (consIf lb []).flatten = lb := by
  by_cases h : lb = [] <;> simp [consIf, h]

theorem joinSep_merge (sep lb line : List Char) (rest : List (List Char)) :
    joinSep sep (consIf lb (line :: rest)) =
      joinSep sep ((lb ++ (if lb = [] then [] else sep) ++ line) :: rest) := by
  by_cases h : lb = []
  · simp [consIf, h]
  · rw [consIf, if_neg h, if_neg h]
    cases rest with
    | nil => simp [joinSep, List.append_assoc]
    | cons y t => simp [joinSep, List.append_assoc]

theorem wsEmbed_ws_prepend {w t x : List Char} (hw : ∀ c ∈ w, isPySpace c = true)
    (h : WsEmbed x t) : WsEmbed x (w ++ t) := by
  simpa using wsEmbed_append (wsEmbed_nil_left hw) h

/-- The workhorse: if the flattened chunks embed into the joined remainder with
a stripped head piece, they embed into the joined remainder with the unstripped
head piece (the stripped edges are whitespace, as is the separator). -/
theorem wsEmbed_joinSep_strip (sep m : List Char) (hsep : ∀ c ∈ sep, isPySpace c = true)
    (rest : List (List Char)) {x : List Char}
    (h : WsEmbed x (joinSep sep (consIf (pyStrip m) rest))) :
    WsEmbed x (joinSep sep (m :: rest)) := by
  obtain ⟨w1, w2, hw1, hw2, hm⟩ := pyStrip_decomp m
  by_cases hc : pyStrip m = []
  · have hmws : ∀ c ∈ m, isPySpace c = true := pyStrip_nil_all_ws hc
    rw [consIf, if_pos hc] at h
    cases rest with
    | nil =>
      have hx : x = [] := wsEmbed_nil_right (by simpa [joinSep] using h)
      subst hx
      exact wsEmbed_nil_left (by simpa [joinSep] using hmws)
    | cons y t =>
      have h2 : WsEmbed x ((m ++ sep) ++ joinSep sep (y :: t)) :=
        wsEmbed_ws_prepend (by
          intro c hc2
          rcases List.mem_append.mp hc2 with h' | h'
          exacts [hmws c h', hsep c h']) h
      simpa [joinSep, List.append_assoc] using h2
  · rw [consIf, if_neg hc] at h
    cases rest with
    | nil =>
      have h' : WsEmbed x (pyStrip m) := by simpa [joinSep] using h
      have h2 : WsEmbed ([] ++ (x ++ [])) (w1 ++ (pyStrip m ++ w2)) :=
        wsEmbed_append (wsEmbed_nil_left hw1)
          (wsEmbed_append h' (wsEmbed_nil_left hw2))
      have h3 : WsEmbed x (w1 ++ (pyStrip m ++ w2)) := by simpa using h2
      show WsEmbed x (joinSep sep [m])
      rw [joinSep]
      nth_rewrite 1 [hm]
      simpa [List.append_assoc] using h3
    | cons y t =>
      have h' : WsEmbed x (pyStrip m ++ (sep ++ joinSep sep (y :: t))) := by
        simpa [joinSep, List.append_assoc] using h
      obtain ⟨x1, x2, hx, h1, h2⟩ := wsEmbed_append_inv h'
      have hb : WsEmbed ([] ++ (x1 ++ [])) (w1 ++ (pyStrip m ++ w2)) :=
        wsEmbed_append (wsEmbed_nil_left hw1)
          (wsEmbed_append h1 (wsEmbed_nil_left hw2))
      have h3 := wsEmbed_append hb h2
      subst hx
      show WsEmbed (x1 ++ x2) (joinSep sep (m :: y :: t))
      rw [joinSep]
      nth_rewrite 1 [hm]
      simpa [List.append_assoc] using h3

theorem splitLines_ws (limit : Nat) :
    ∀ lines lineBuf,
      WsEmbed (splitLines limit lineBuf lines).flatten
        (joinSep ['\n'] (consIf lineBuf lines)) := by
  intro lines
  induction lines with
  | nil =>
    intro lineBuf
    by_cases h : lineBuf = []
    · simp [splitLines, consIf, h, joinSep]
      exact .nil
    · simp only [splitLines, consIf, if_neg h]
      simp [joinSep]
      exact wsEmbed_refl lineBuf
  | cons line rest ih =>
    intro lineBuf
    simp only [splitLines]
    by_cases hc :
        (pyStrip (lineBuf ++ (if lineBuf = [] then [] else ['\n']) ++ line)).length ≤ limit
    · rw [if_pos hc]
      rw [joinSep_merge]
      exact wsEmbed_joinSep_strip ['\n'] _ (by simp [isPySpace]) rest (ih _)
    · rw [if_neg hc]
      rw [joinSep_merge]
      have hflat :
          ((if lineBuf = [] then [] else [lineBuf]) ++
            hardCutF limit line.length line ++ splitLines limit [] rest).flatten =
            lineBuf ++ (line ++ (splitLines limit [] rest).flatten) := by
        rw [List.flatten_append, List.flatten_append]
        rw [join_hardCutF]
        rw [← consIf, flatten_consIf_nil]
        simp [List.append_assoc]
      rw [hflat]
      have ih0 : WsEmbed (splitLines limit [] rest).flatten (joinSep ['\n'] rest) := by
        simpa [consIf] using ih []
      cases rest with
      | nil =>
        have hx : (splitLines limit [] ([] : List (List Char))).flatten = [] := by
          simp [splitLines]
        rw [hx]
        rw [joinSep]
        have : WsEmbed (lineBuf ++ (line ++ []))
            (lineBuf ++ ((if lineBuf = [] then [] else ['\n']) ++ line)) :=
          wsEmbed_append (wsEmbed_refl lineBuf)
            (wsEmbed_ws_prepend (by
              by_cases h : lineBuf = [] <;> simp [h, isPySpace]) (by
              simp only [List.append_nil]
              exact wsEmbed_refl line))
        simpa [List.append_assoc] using this
      | cons y t =>
        rw [joinSep]
        have hstep : WsEmbed (lineBuf ++ (line ++ (splitLines limit [] (y :: t)).flatten))
            (lineBuf ++ ((if lineBuf = [] then [] else ['\n']) ++
              (line ++ (['\n'] ++ joinSep ['\n'] (y :: t))))) :=
          wsEmbed_append (wsEmbed_refl lineBuf)
            (wsEmbed_ws_prepend (by
                by_cases h : lineBuf = [] <;> simp [h, isPySpace])
              (wsEmbed_append (wsEmbed_refl line)
                (wsEmbed_ws_prepend (by simp [isPySpace]) ih0)))
        simpa [List.append_assoc] using hstep

theorem splitParts_ws (limit : Nat) :
    ∀ parts buf,
      WsEmbed (splitParts limit buf parts).flatten
        (joinSep ['\n', '\n'] (consIf buf parts)) := by
  intro parts
  induction parts with
  | nil =>
    intro buf
    by_cases h : buf = []
    · simp [splitParts, consIf, h, joinSep]
      exact .nil
    · simp only [splitParts, consIf, if_neg h]
      simp [joinSep]
      exact wsEmbed_refl buf
  | cons p rest ih =>
    intro buf
    simp only [splitParts]
    by_cases hc :
        (pyStrip (buf ++ (if buf = [] then [] else ['\n', '\n']) ++ p)).length ≤ limit
    · rw [if_pos hc]
      rw [joinSep_merge]
      exact wsEmbed_joinSep_strip ['\n', '\n'] _ (by simp [isPySpace]) rest (ih _)
    · rw [if_neg hc]
      rw [joinSep_merge]
      have ih0 : WsEmbed (splitParts limit [] rest).flatten (joinSep ['\n', '\n'] rest) := by
        simpa [consIf] using ih []
      by_cases hp : p.length ≤ limit
      · rw [if_pos hp]
        have hflat :
            ((if buf = [] then [] else [buf]) ++
              (pyStrip p :: splitParts limit [] rest)).flatten =
              buf ++ (pyStrip p ++ (splitParts limit [] rest).flatten) := by
          rw [List.flatten_append]
          rw [← consIf, flatten_consIf_nil]
          simp
        rw [hflat]
        cases rest with
        | nil =>
          have hx : (splitParts limit [] ([] : List (List Char))).flatten = [] := by
            simp [splitParts]
          rw [hx]
          rw [joinSep]
          have hstep : WsEmbed (buf ++ (pyStrip p ++ []))
              (buf ++ ((if buf = [] then [] else ['\n', '\n']) ++ p)) :=
            wsEmbed_append (wsEmbed_refl buf)
              (wsEmbed_ws_prepend (by
                by_cases h : buf = [] <;> simp [h, isPySpace]) (by
                simp only [List.append_nil]
                exact wsEmbed_pyStrip p))
          simpa [List.append_assoc] using hstep
        | cons y t =>
          rw [joinSep]
          have hstep : WsEmbed (buf ++ (pyStrip p ++ (splitParts limit [] (y :: t)).flatten))
              (buf ++ ((if buf = [] then [] else ['\n', '\n']) ++
                (p ++ (['\n', '\n'] ++ joinSep ['\n', '\n'] (y :: t))))) :=
            wsEmbed_append (wsEmbed_refl buf)
              (wsEmbed_ws_prepend (by
                  by_cases h : buf = [] <;> simp [h, isPySpace])
                (wsEmbed_append (wsEmbed_pyStrip p)
                  (wsEmbed_ws_prepend (by simp [isPySpace]) ih0)))
          simpa [List.append_assoc] using hstep
      · rw [if_neg hp]
        have hinner :
            WsEmbed (splitLines limit [] (splitSep ['\n'] p)).flatten p := by
          have h1 := splitLines_ws limit (splitSep ['\n'] p) []
          rw [consIf, if_pos rfl] at h1
          rwa [joinSep_splitSep ['\n'] p] at h1
        have hflat :
            ((if buf = [] then [] else [buf]) ++
              (splitLines limit [] (splitSep ['\n'] p) ++ splitParts limit [] rest)).flatten =
              buf ++ ((splitLines limit [] (splitSep ['\n'] p)).flatten ++
                (splitParts limit [] rest).flatten) := by
          rw [List.flatten_append, List.flatten_append]
          rw [← consIf, flatten_consIf_nil]
        rw [hflat]
        cases rest with
        | nil =>
          have hx : (splitParts limit [] ([] : List (List Char))).flatten = [] := by
            simp [splitParts]
          rw [hx]
          rw [joinSep]
          have hstep : WsEmbed (buf ++ ((splitLines limit [] (splitSep ['\n'] p)).flatten ++ []))
              (buf ++ ((if buf = [] then [] else ['\n', '\n']) ++ p)) :=
            wsEmbed_append (wsEmbed_refl buf)
              (wsEmbed_ws_prepend (by
                by_cases h : buf = [] <;> simp [h, isPySpace]) (by simpa using hinner))
          simpa [List.append_assoc] using hstep
        | cons y t =>
          rw [joinSep]
          have hstep : WsEmbed
              (buf ++ ((splitLines limit [] (splitSep ['\n'] p)).flatten ++
                (splitParts limit [] (y :: t)).flatten))
              (buf ++ ((if buf = [] then [] else ['\n', '\n']) ++
                (p ++ (['\n', '\n'] ++ joinSep ['\n', '\n'] (y :: t))))) :=
            wsEmbed_append (wsEmbed_refl buf)
              (wsEmbed_ws_prepend (by
                  by_cases h : buf = [] <;> simp [h, isPySpace])
                (wsEmbed_append hinner
                  (wsEmbed_ws_prepend (by simp [isPySpace]) ih0)))
          simpa [List.append_assoc] using hstep

theorem flatten_filter_ne_nil (L : List (List Char)) :
    (L.filter (fun c => !c.isEmpty)).flatten = L.flatten := by
  induction L with
  | nil => simp
  | cons c t ih =>
    by_cases h : c = []
    · simp [h, List.filter_cons, ih]
    · simp only [List.filter_cons]
      rw [if_pos (by simpa [List.isEmpty_iff] using h)]
      simp [ih]

theorem split_text_ws (text : List Char) (limit : Nat) :
    WsEmbed (_split_text text limit).flatten text := by
  rw [_split_text]
  by_cases h : text.length ≤ limit
  · rw [if_pos h]
    simpa using wsEmbed_refl text
  · rw [if_neg h]
    rw [flatten_filter_ne_nil]
    have h1 := splitParts_ws limit (splitSep ['\n', '\n'] text) []
    rw [consIf, if_pos rfl] at h1
    rwa [joinSep_splitSep ['\n', '\n'] text] at h1

/-! ## Concrete evaluations of `_split_text` on long inputs -/

theorem lstrip_cons_not (c : Char) (t : List Char) (h : isPySpace c = false) :
    lstrip (c :: t) = c :: t := by
  simp [lstrip, List.dropWhile_cons, h]

theorem rstrip_append_not (t : List Char) (c : Char) (h : isPySpace c = false) :
    rstrip (t ++ [c]) = t ++ [c] := by
  unfold rstrip
  rw [List.reverse_append]
  simp [List.dropWhile_cons, h]

theorem pyStrip_edge (c0 c1 : Char) (mid : List Char)
    (h0 : isPySpace c0 = false) (h1 : isPySpace c1 = false) :
    pyStrip (c0 :: (mid ++ [c1])) = c0 :: (mid ++ [c1]) := by
  rw [pyStrip, lstrip_cons_not _ _ h0, ← List.cons_append, rstrip_append_not _ _ h1]

theorem pyStrip_replicate_a (n : Nat) : pyStrip (List.replicate n 'a') = List.replicate n 'a' := by
  cases n with
  | zero => simp [pyStrip, lstrip, rstrip]
  | succ k =>
    have h1 : lstrip (List.replicate (k + 1) 'a') = List.replicate (k + 1) 'a' := by
      rw [List.replicate_succ]
      exact lstrip_cons_not 'a' _ (by decide)
    have h2 : rstrip (List.replicate (k + 1) 'a') = List.replicate (k + 1) 'a' := by
      rw [List.replicate_succ']
      rw [rstrip_append_not _ 'a' (by decide)]
    rw [pyStrip, h1, h2]

theorem replicate_ne_nil (c : Char) (n : Nat) (h : 0 < n) : List.replicate n c ≠ [] :=
  List.length_pos.mp (by simpa using h)

theorem isEmpty_false_of_ne_nil {l : List Char} (h : l ≠ []) : l.isEmpty = false := by
  cases l with
  | nil => exact absurd rfl h
  | cons c t => rfl

theorem hardCutF_step (limit f : Nat) (s : List Char) (h : s ≠ []) :
    hardCutF limit (f + 1) s = s.take limit :: hardCutF limit f (s.drop limit) := by
  cases s with
  | nil => exact absurd rfl h
  | cons c t => rfl

theorem splitSep_replicate_a_nil (sep2 : List Char) (n : Nat) :
    splitSep ('\n' :: sep2) (List.replicate n 'a') = [List.replicate n 'a'] := by
  have h0 : splitSep ('\n' :: sep2) [] = [[]] := by
    simp [splitSep, splitSepF]
  have h := splitSep_replicate '\n' 'a' sep2 (by decide) n [] [] [] (by simpa using h0)
  simpa using h

theorem splitLines_end (limit : Nat) (lineBuf : List Char) :
    splitLines limit lineBuf [] = if lineBuf = [] then [] else [lineBuf] := by
  rw [splitLines]

theorem splitLines_nil_buf_cons (limit : Nat) (line : List Char) (rest : List (List Char)) :
    splitLines limit [] (line :: rest) =
      if (pyStrip line).length ≤ limit then splitLines limit (pyStrip line) rest
      else hardCutF limit line.length line ++ splitLines limit [] rest := by
  rw [splitLines]
  simp

theorem splitParts_end (limit : Nat) (buf : List Char) :
    splitParts limit buf [] = if buf = [] then [] else [buf] := by
  rw [splitParts]

theorem splitParts_nil_buf_cons (limit : Nat) (p : List Char) (rest : List (List Char)) :
    splitParts limit [] (p :: rest) =
      if (pyStrip p).length ≤ limit then splitParts limit (pyStrip p) rest
      else
        (if p.length ≤ limit then pyStrip p :: splitParts limit [] rest
         else splitLines limit [] (splitSep ['\n'] p) ++ splitParts limit [] rest) := by
  rw [splitParts]
  simp

theorem splitParts_buf_cons (limit : Nat) (buf p : List Char) (rest : List (List Char))
    (h : buf ≠ []) :
    splitParts limit buf (p :: rest) =
      if (pyStrip (buf ++ ['\n', '\n'] ++ p)).length ≤ limit then
        splitParts limit (pyStrip (buf ++ ['\n', '\n'] ++ p)) rest
      else
        buf ::
          (if p.length ≤ limit then pyStrip p :: splitParts limit [] rest
           else splitLines limit [] (splitSep ['\n'] p) ++ splitParts limit [] rest) := by
  rw [splitParts]
  simp [h]

theorem split_text_replicate :
    _split_text (List.replicate 3901 'a') 3900 = [List.replicate 3900 'a', ['a']] := by
  have hlen : (List.replicate 3901 'a').length = 3901 := by
    rw [List.length_replicate]
  have hgt : ¬ (List.replicate 3901 'a').length ≤ 3900 := by
    rw [hlen]
    norm_num
  have hcut1 : hardCutF 3900 3901 (List.replicate 3901 'a') =
      List.replicate 3900 'a' :: hardCutF 3900 3900 ['a'] := by
    rw [show (3901 : Nat) = 3900 + 1 from rfl]
    rw [hardCutF_step _ _ _ (replicate_ne_nil 'a' (3900 + 1) (by norm_num))]
    rw [List.take_replicate, List.drop_replicate]
    norm_num
  have hcut2 : hardCutF 3900 3900 ['a'] = [['a']] := by
    rw [show (3900 : Nat) = 3899 + 1 from rfl]
    rw [hardCutF_step _ _ _ (by simp)]
    simp [hardCutF]
  have hlines : splitLines 3900 [] [List.replicate 3901 'a'] =
      [List.replicate 3900 'a', ['a']] := by
    rw [splitLines_nil_buf_cons]
    rw [pyStrip_replicate_a]
    rw [if_neg hgt]
    rw [hlen, hcut1, hcut2]
    rw [splitLines_end]
    rw [if_pos rfl, List.append_nil]
  have hparts : splitParts 3900 [] [List.replicate 3901 'a'] =
      [List.replicate 3900 'a', ['a']] := by
    rw [splitParts_nil_buf_cons]
    rw [pyStrip_replicate_a]
    rw [if_neg hgt, if_neg hgt]
    rw [splitSep_replicate_a_nil [] 3901, hlines]
    rw [splitParts_end]
    rw [if_pos rfl, List.append_nil]
  rw [_split_text, if_neg hgt]
  rw [splitSep_replicate_a_nil ['\n'] 3901, hparts]
  have h1 : (List.replicate 3900 'a').isEmpty = false :=
    isEmpty_false_of_ne_nil (replicate_ne_nil 'a' 3900 (by norm_num))
  simp only [List.filter_cons, List.filter_nil, h1, List.isEmpty_cons, Bool.not_false,
    if_true]

theorem split_text_strip_example :
    _split_text (List.replicate 3900 'a' ++ ['\n', '\n'] ++ [' ', 'b']) 3900 =
      [List.replicate 3900 'a', ['b']] := by
  have hA : List.replicate 3900 'a' = 'a' :: List.replicate 3899 'a' := by
    rw [show (3900 : Nat) = 3899 + 1 from rfl, List.replicate_succ]
  have hlenA : (List.replicate 3900 'a').length = 3900 := by
    rw [List.length_replicate]
  have hlen : (List.replicate 3900 'a' ++ ['\n', '\n'] ++ [' ', 'b']).length = 3904 := by
    simp only [List.length_append, List.length_replicate, List.length_cons,
      List.length_nil]
  have hshape : List.replicate 3900 'a' ++ ['\n', '\n'] ++ [' ', 'b'] =
      'a' :: ((List.replicate 3899 'a' ++ ['\n', '\n', ' ']) ++ ['b']) := by
    rw [hA]
    simp only [List.cons_append, List.nil_append, List.append_assoc]
  have hstrip : pyStrip (List.replicate 3900 'a' ++ ['\n', '\n'] ++ [' ', 'b']) =
      List.replicate 3900 'a' ++ ['\n', '\n'] ++ [' ', 'b'] := by
    rw [hshape]
    exact pyStrip_edge 'a' 'b' _ (by decide) (by decide)
  have hrest : splitSep ['\n', '\n'] (['\n', '\n'] ++ [' ', 'b']) = [[], [' ', 'b']] := by
    decide
  have hsep : splitSep ['\n', '\n'] (List.replicate 3900 'a' ++ ['\n', '\n'] ++ [' ', 'b']) =
      [List.replicate 3900 'a', [' ', 'b']] := by
    rw [List.append_assoc]
    have h := splitSep_replicate '\n' 'a' ['\n'] (by decide) 3900 (['\n', '\n'] ++ [' ', 'b'])
      [] [[' ', 'b']] hrest
    simpa only [List.append_nil] using h
  have hparts : splitParts 3900 [] [List.replicate 3900 'a', [' ', 'b']] =
      [List.replicate 3900 'a', ['b']] := by
    rw [splitParts_nil_buf_cons]
    rw [pyStrip_replicate_a]
    rw [if_pos (le_of_eq hlenA)]
    rw [splitParts_buf_cons _ _ _ _ (replicate_ne_nil 'a' 3900 (by norm_num))]
    rw [hstrip]
    rw [if_neg (by rw [hlen]; norm_num)]
    rw [if_pos (by decide : ([' ', 'b'] : List Char).length ≤ 3900)]
    rw [show pyStrip [' ', 'b'] = ['b'] from by decide]
    rw [splitParts_end, if_pos rfl]
  rw [_split_text, if_neg (by rw [hlen]; norm_num)]
  rw [hsep, hparts]
  have h1 : (List.replicate 3900 'a').isEmpty = false :=
    isEmpty_false_of_ne_nil (replicate_ne_nil 'a' 3900 (by norm_num))
  simp only [List.filter_cons, List.filter_nil, h1, List.isEmpty_cons, Bool.not_false,
    if_true]

/-! ## Payload and sequencing facts about `send_message` -/

theorem sendChunks_parse_mode (chat_id : Int) (dwpp : Bool) (epm : Option (List Char))
    (outcomes : Nat → TgOutcome) :
    ∀ chunks i, ∀ a ∈ (sendChunks chat_id dwpp epm outcomes i chunks).1,
      a.parse_mode = (mkTgPayload chat_id [] dwpp epm).parse_mode := by
  intro chunks
  induction chunks with
  | nil => intro i a ha; simp [sendChunks] at ha
  | cons part rest ih =>
    intro i a ha
    cases houtcome : outcomes i with
    | fail msg =>
      simp only [sendChunks, houtcome] at ha
      simp at ha
      subst ha
      rfl
    | resp status body =>
      simp only [sendChunks, houtcome] at ha
      by_cases hs : status ≥ 400
      · rw [if_pos hs] at ha
        simp at ha
        subst ha
        rfl
      · rw [if_neg hs] at ha
        simp only [List.mem_cons] at ha
        rcases ha with rfl | ha
        · rfl
        · exact ih (i + 1) a ha

/-- C10: whenever `_split_text` produces more than one chunk, every payload
`send_message` posts omits `parse_mode`, even when one was requested; a payload
carries a `parse_mode` only when the text fits in exactly one chunk (and then it
is the requested one). -/
theorem c10_parse_mode_only_single_chunk (bot_token : List Char) (chat_id : Int)
    (text : List Char) (parse_mode : Option (List Char)) (dwpp : Bool)
    (outcomes : Nat → TgOutcome) :
    (1 < (_split_text text TELEGRAM_SAFE_LIMIT).length →
      ∀ a ∈ (send_message bot_token chat_id text parse_mode dwpp outcomes).1,
        a.parse_mode = none) ∧
    (∀ a ∈ (send_message bot_token chat_id text parse_mode dwpp outcomes).1,
      ∀ pm, a.parse_mode = some pm →
        (_split_text text TELEGRAM_SAFE_LIMIT).length = 1 ∧ parse_mode = some pm) := by
  constructor
  · intro hlen a ha
    simp only [send_message] at ha
    have hne : ((_split_text text TELEGRAM_SAFE_LIMIT).length == 1) = false := by
      rw [beq_eq_false_iff_ne]
      omega
    rw [hne] at ha
    have hshared := sendChunks_parse_mode chat_id dwpp _ outcomes _ 0 a (by
      simpa using ha)
    simpa [mkTgPayload] using hshared
  · intro a ha pm hpm
    simp only [send_message] at ha
    have hshared := sendChunks_parse_mode chat_id dwpp _ outcomes _ 0 a ha
    rw [hpm] at hshared
    by_cases hlen1 : ((_split_text text TELEGRAM_SAFE_LIMIT).length == 1) = true
    · rw [if_pos hlen1] at hshared
      refine ⟨by simpa using hlen1, ?_⟩
      cases hpm2 : parse_mode with
      | none =>
        rw [hpm2] at hshared
        simp [mkTgPayload] at hshared
      | some q =>
        rw [hpm2] at hshared
        by_cases hq : q = []
        · rw [hq] at hshared
          simp [mkTgPayload] at hshared
        · simp only [mkTgPayload, if_neg hq] at hshared
          rw [← hshared]
    · rw [if_neg hlen1] at hshared
      simp [mkTgPayload] at hshared

theorem c10_parse_mode_only_single_chunk_witness :
    1 < (_split_text (List.replicate 3901 'a') TELEGRAM_SAFE_LIMIT).length ∧
    ∀ a ∈ (send_message [] 1 (List.replicate 3901 'a') (some (chars "HTML")) true
        (fun _ => .resp 200 [])).1, a.parse_mode = none := by
  have hlen : 1 < (_split_text (List.replicate 3901 'a') TELEGRAM_SAFE_LIMIT).length := by
    rw [show TELEGRAM_SAFE_LIMIT = 3900 from rfl, split_text_replicate]
    simp only [List.length_cons, List.length_nil]
    omega
  exact ⟨hlen,
    (c10_parse_mode_only_single_chunk [] 1 (List.replicate 3901 'a') (some (chars "HTML"))
      true (fun _ => .resp 200 [])).1 hlen⟩

/-- C3: every chunk produced by `_split_text` at the safe budget has length at
most that budget, which is 3900, strictly below the provider's hard 4096
per-message limit. -/
theorem c3_chunk_length_bound :
    (∀ text, ∀ u ∈ _split_text text TELEGRAM_SAFE_LIMIT, u.length ≤ TELEGRAM_SAFE_LIMIT) ∧
    TELEGRAM_SAFE_LIMIT = 3900 ∧ TELEGRAM_SAFE_LIMIT < TELEGRAM_MESSAGE_LIMIT ∧
    TELEGRAM_MESSAGE_LIMIT = 4096 := by
  refine ⟨?_, rfl, by norm_num [TELEGRAM_SAFE_LIMIT, TELEGRAM_MESSAGE_LIMIT], rfl⟩
  intro text u hu
  exact split_text_bound TELEGRAM_SAFE_LIMIT (by norm_num [TELEGRAM_SAFE_LIMIT]) text u hu

theorem c3_chunk_length_bound_witness :
    chars "hi" ∈ _split_text (chars "hi") TELEGRAM_SAFE_LIMIT ∧
      (chars "hi").length ≤ TELEGRAM_SAFE_LIMIT :=
  ⟨by decide, c3_chunk_length_bound.1 (chars "hi") (chars "hi") (by decide)⟩

/-- C4 counterexample: for the 3904-character input `'a' * 3900 ++ "\n\n" ++ " b"`
(longer than the 3900 safe limit), the splitter yields the chunks
`['a' * 3900, "b"]`: the space before `b` is stripped away, so no re-insertion
of the removed blank-line/newline separator characters alone can reproduce the
original text — the claim as stated fails at this input. -/
theorem c4_counterexample :
    TELEGRAM_SAFE_LIMIT <
        (List.replicate 3900 'a' ++ ['\n', '\n'] ++ [' ', 'b']).length ∧
    _split_text (List.replicate 3900 'a' ++ ['\n', '\n'] ++ [' ', 'b'])
        TELEGRAM_SAFE_LIMIT = [List.replicate 3900 'a', ['b']] ∧
    ¬ ∃ sep : List Char,
        (sep = ['\n', '\n'] ∨ sep = ['\n'] ∨ sep = []) ∧
        List.replicate 3900 'a' ++ sep ++ ['b'] =
          List.replicate 3900 'a' ++ ['\n', '\n'] ++ [' ', 'b'] := by
  have hlen : (List.replicate 3900 'a' ++ ['\n', '\n'] ++ [' ', 'b']).length = 3904 := by
    simp only [List.length_append, List.length_replicate, List.length_cons, List.length_nil]
  refine ⟨by rw [hlen]; norm_num [TELEGRAM_SAFE_LIMIT], ?_, ?_⟩
  · rw [show TELEGRAM_SAFE_LIMIT = 3900 from rfl]
    exact split_text_strip_example
  · rintro ⟨sep, hsep, heq⟩
    have hlen2 := congrArg List.length heq
    rw [hlen] at hlen2
    simp only [List.length_append, List.length_replicate, List.length_cons,
      List.length_nil] at hlen2
    rcases hsep with rfl | rfl | rfl <;> simp at hlen2

/-- C4 (amended): for all text longer than the safe delivery limit, the
concatenation of the chunks embeds into the original text skipping only
whitespace characters — re-inserting whitespace (the blank-line/newline
separators removed at chunk boundaries, plus the whitespace trimmed off chunk
edges; whitespace-only fragments may be dropped entirely) reproduces the
original text, and no non-whitespace character of the input is lost or altered
by splitting. -/
theorem c4_reconstruction_upto_whitespace (text : List Char)
    (_h : TELEGRAM_SAFE_LIMIT < text.length) :
    WsEmbed (_split_text text TELEGRAM_SAFE_LIMIT).flatten text := by
  exact split_text_ws text TELEGRAM_SAFE_LIMIT

theorem c4_reconstruction_upto_whitespace_witness :
    TELEGRAM_SAFE_LIMIT < (List.replicate 3901 'a').length ∧
      WsEmbed (_split_text (List.replicate 3901 'a') TELEGRAM_SAFE_LIMIT).flatten
        (List.replicate 3901 'a') := by
  have hl : TELEGRAM_SAFE_LIMIT < (List.replicate 3901 'a').length := by
    rw [List.length_replicate]
    norm_num [TELEGRAM_SAFE_LIMIT]
  exact ⟨hl, c4_reconstruction_upto_whitespace (List.replicate 3901 'a') hl⟩

/-- C2: `send_message` stops at the first failing chunk, but the raised
`TelegramError` does not carry the count of chunks sent before the failure:
two runs on the same two-chunk text — one failing at the first chunk (0 chunks
delivered), one failing at the second (1 chunk delivered) — raise the very same
error value, so the count is not recoverable from it, and the caller's
`getattr(e, "sent_parts", 0)` always reads 0. -/
theorem c2_error_carries_no_sent_parts :
    (send_message [] 1 (List.replicate 3901 'a') none true
        (fun _ => .resp 500 (chars "boom"))).2 =
      (send_message [] 1 (List.replicate 3901 'a') none true
        (fun i => if i = 0 then .resp 200 [] else .resp 500 (chars "boom"))).2 ∧
    (send_message [] 1 (List.replicate 3901 'a') none true
        (fun _ => .resp 500 (chars "boom"))).2 =
      .error ⟨chars "Telegram error 500: boom"⟩ ∧
    (send_message [] 1 (List.replicate 3901 'a') none true
        (fun _ => .resp 500 (chars "boom"))).1.length = 1 ∧
    (send_message [] 1 (List.replicate 3901 'a') none true
        (fun i => if i = 0 then .resp 200 [] else .resp 500 (chars "boom"))).1.length = 2 ∧
    (_split_text (List.replicate 3901 'a') TELEGRAM_SAFE_LIMIT).length = 2 := by
  have hchunks : _split_text (List.replicate 3901 'a') TELEGRAM_SAFE_LIMIT =
      [List.replicate 3900 'a', ['a']] := by
    rw [show TELEGRAM_SAFE_LIMIT = 3900 from rfl]
    exact split_text_replicate
  have hmsg : chars "Telegram error " ++ (natStr 500 ++ (chars ": " ++
      (chars "boom").take 2000)) = chars "Telegram error 500: boom" := by decide
  simp only [send_message, hchunks, List.length_cons, List.length_nil]
  simp only [sendChunks, List.append_assoc, hmsg]
  norm_num [List.append_assoc, hmsg]

/-! ## The LLM compatibility retry (C1) -/

theorem containsSub_infix_iff (sub : List Char) :
    ∀ l, containsSub sub l = true ↔ sub <:+: l := by
  intro l
  induction l with
  | nil =>
    simp only [containsSub]
    rw [List.isPrefixOf_iff_prefix]
    constructor
    · intro h
      exact h.isInfix
    · intro h
      obtain ⟨s, t, hst⟩ := h
      have hlen := congrArg List.length hst
      simp only [List.length_append, List.length_nil] at hlen
      have hsub : sub = [] := List.eq_nil_of_length_eq_zero (by omega)
      subst hsub
      exact List.nil_prefix
  | cons c t ih =>
    simp only [containsSub, Bool.or_eq_true]
    rw [List.isPrefixOf_iff_prefix, ih]
    rw [List.infix_cons_iff]

theorem containsSub_append_right (sub l r : List Char)
    (h : containsSub sub r = true) : containsSub sub (l ++ r) = true := by
  induction l with
  | nil => simpa using h
  | cons c t ih =>
    simp only [List.cons_append, containsSub, Bool.or_eq_true]
    exact Or.inr ih

theorem containsSub_replicate_x_false (sub : List Char) (c : Char) (hc : c ∈ sub)
    (hne : c ≠ 'x') (n : Nat) : containsSub sub (List.replicate n 'x') = false := by
  rcases Bool.eq_false_or_eq_true (containsSub sub (List.replicate n 'x')) with h | h
  · exfalso
    have hinf : sub <:+: List.replicate n 'x' := (containsSub_infix_iff sub _).mp h
    exact hne (List.eq_of_mem_replicate (hinf.subset hc))
  · exact h

/-- C1 counterexample: a first response with status 400 whose body textually
mentions both `max_tokens` and `max_completion_tokens` — but only beyond the
first 5000 characters — triggers no retry: exactly one request is posted,
because `_needs_max_completion_tokens` inspects only `r.text[:5000]`. -/
theorem c1_counterexample :
    containsSub (chars "max_tokens")
        (List.replicate 5000 'x' ++ chars " max_tokens and max_completion_tokens") = true ∧
    containsSub (chars "max_completion_tokens")
        (List.replicate 5000 'x' ++ chars " max_tokens and max_completion_tokens") = true ∧
    (HttpResp.mk 400 (List.replicate 5000 'x' ++ chars " max_tokens and max_completion_tokens")
        [] none).status = 400 ∧
    (openai_chat_completion (chars "https://host") (chars "m") none (chars "u") 0 (some 100)
        (.resp (HttpResp.mk 400
          (List.replicate 5000 'x' ++ chars " max_tokens and max_completion_tokens") [] none))
        (.resp (HttpResp.mk 400
          (List.replicate 5000 'x' ++ chars " max_tokens and max_completion_tokens") []
          none))).requests.length = 1 := by
  have htake : (List.replicate 5000 'x' ++
      chars " max_tokens and max_completion_tokens").take 5000 = List.replicate 5000 'x' :=
    List.take_left' (by rw [List.length_replicate])
  have hmct : containsSub (chars "max_completion_tokens") (List.replicate 5000 'x') = false :=
    containsSub_replicate_x_false _ 'm' (by decide) (by decide) 5000
  have hneeds : _needs_max_completion_tokens (HttpResp.mk 400
      (List.replicate 5000 'x' ++ chars " max_tokens and max_completion_tokens") [] none) =
      false := by
    simp only [_needs_max_completion_tokens, htake, hmct]
    simp only [Bool.false_and, Bool.and_false]
  refine ⟨?_, ?_, rfl, ?_⟩
  · exact containsSub_append_right _ _ _ (by decide)
  · exact containsSub_append_right _ _ _ (by decide)
  · simp only [openai_chat_completion]
    rw [if_neg (by rw [hneeds]; exact Bool.false_ne_true)]
    rfl

/-- C1 (amended): exactly one compatibility retry is issued — with the
token-limit field renamed to `max_completion_tokens`, substituting the fixed
8192 ceiling when the original request was unlimited (`max_tokens` absent or
`≤ 0`, in which case no limit field was sent) — precisely when the first post
returns a response with status 400 whose body mentions both `max_tokens` and
`max_completion_tokens` within its first 5000 characters; for every other first
outcome (transport error, other status, or mentions missing from that prefix)
exactly one request is posted, and no third request exists in any case. -/
theorem c1_retry_characterization (base_url model : List Char)
    (system : Option (List Char)) (user : List Char) (temperature : Rat)
    (max_tokens : Option Int) (first second : PostOutcome) :
    (∀ msg, first = .fail msg →
      (openai_chat_completion base_url model system user temperature max_tokens
        first second).requests =
        [{ model := model,
           messages := (match system with
             | some s => if s = [] then [] else [(chars "system", s)]
             | none => []) ++ [(chars "user", user)],
           temperature := temperature,
           tokenLimit := match max_tokens with
             | some n => if n > 0 then some (.max_tokens n) else none
             | none => none }]) ∧
    (∀ r, first = .resp r → r.status = 400 →
      containsSub (chars "max_completion_tokens") (r.text.take 5000) = true →
      containsSub (chars "max_tokens") (r.text.take 5000) = true →
      (openai_chat_completion base_url model system user temperature max_tokens
        first second).requests =
        [{ model := model,
           messages := (match system with
             | some s => if s = [] then [] else [(chars "system", s)]
             | none => []) ++ [(chars "user", user)],
           temperature := temperature,
           tokenLimit := match max_tokens with
             | some n => if n > 0 then some (.max_tokens n) else none
             | none => none },
         { model := model,
           messages := (match system with
             | some s => if s = [] then [] else [(chars "system", s)]
             | none => []) ++ [(chars "user", user)],
           temperature := temperature,
           tokenLimit := some (.max_completion_tokens (match max_tokens with
             | some n => if n > 0 then n else 8192
             | none => 8192)) }]) ∧
    (∀ r, first = .resp r →
      ¬ (r.status = 400 ∧
          containsSub (chars "max_completion_tokens") (r.text.take 5000) = true ∧
          containsSub (chars "max_tokens") (r.text.take 5000) = true) →
      (openai_chat_completion base_url model system user temperature max_tokens
        first second).requests =
        [{ model := model,
           messages := (match system with
             | some s => if s = [] then [] else [(chars "system", s)]
             | none => []) ++ [(chars "user", user)],
           temperature := temperature,
           tokenLimit := match max_tokens with
             | some n => if n > 0 then some (.max_tokens n) else none
             | none => none }]) := by
  refine ⟨?_, ?_, ?_⟩
  · intro msg hfirst
    subst hfirst
    rfl
  · intro r hfirst h400 hmct hmt
    subst hfirst
    have hneeds : _needs_max_completion_tokens r = true := by
      simp only [_needs_max_completion_tokens, hmct, hmt, Bool.and_eq_true, beq_iff_eq]
      exact ⟨h400, trivial, trivial⟩
    simp only [openai_chat_completion]
    rw [if_pos (by rw [hneeds])]
    cases second with
    | fail msg => rfl
    | resp r2 => rfl
  · intro r hfirst hneg
    subst hfirst
    have hneeds : _needs_max_completion_tokens r = false := by
      rcases Bool.eq_false_or_eq_true (_needs_max_completion_tokens r) with h | h
      · exfalso
        apply hneg
        simp only [_needs_max_completion_tokens, Bool.and_eq_true, beq_iff_eq] at h
        exact ⟨h.1, h.2.1, h.2.2⟩
      · exact h
    simp only [openai_chat_completion]
    rw [if_neg (by simp [hneeds])]

theorem c1_retry_characterization_witness :
    (HttpResp.mk 400 (chars "needs max_tokens or max_completion_tokens") [] none).status
        = 400 ∧
    containsSub (chars "max_completion_tokens")
        ((chars "needs max_tokens or max_completion_tokens").take 5000) = true ∧
    containsSub (chars "max_tokens")
        ((chars "needs max_tokens or max_completion_tokens").take 5000) = true ∧
    (openai_chat_completion (chars "b") (chars "m") none (chars "u") 0 (some 0)
        (.resp (HttpResp.mk 400 (chars "needs max_tokens or max_completion_tokens") [] none))
        (.resp (HttpResp.mk 200 [] [] (some (chars "ok"))))).requests.length = 2 := by
  refine ⟨rfl, by decide, by decide, ?_⟩
  have h := (c1_retry_characterization (chars "b") (chars "m") none (chars "u") 0 (some 0)
    (.resp (HttpResp.mk 400 (chars "needs max_tokens or max_completion_tokens") [] none))
    (.resp (HttpResp.mk 200 [] [] (some (chars "ok"))))).2.1
    (HttpResp.mk 400 (chars "needs max_tokens or max_completion_tokens") [] none)
    rfl rfl (by decide) (by decide)
  rw [h]
  rfl

/-! ## The outcome upsert (C8) -/

theorem applyFields_request_id (r : Row) (f : OutcomeFields) :
    (applyFields r f).request_id = r.request_id := rfl

theorem applyFields_id (r : Row) (f : OutcomeFields) : (applyFields r f).id = r.id := rfl

theorem fieldsOfRow_applyFields (r : Row) (f : OutcomeFields) :
    fieldsOfRow (applyFields r f) = f := rfl

theorem latestFold_no_match (rid : List Char) :
    ∀ (db : List Row) (acc : Option Row), (∀ r ∈ db, ¬ r.request_id = rid) →
      List.foldl
        (fun acc r =>
          if r.request_id = rid then
            match acc with
            | none => some r
            | some best => if best.id ≤ r.id then some r else some best
          else acc)
        acc db = acc := by
  intro db
  induction db with
  | nil => intro acc _; rfl
  | cons row rest ih =>
    intro acc hnm
    simp only [List.foldl_cons]
    rw [if_neg (hnm row (by simp))]
    exact ih acc fun r hr => hnm r (by simp [hr])

theorem latestByRid_of_filter_singleton (rid : List Char) :
    ∀ (db : List Row) (r0 : Row),
      db.filter (fun r => decide (r.request_id = rid)) = [r0] →
      latestByRid db rid = some r0 := by
  intro db
  induction db with
  | nil => intro r0 h; simp at h
  | cons row rest ih =>
    intro r0 h
    by_cases hm : row.request_id = rid
    · rw [List.filter_cons_of_pos (by simpa using hm)] at h
      obtain ⟨hrow, hrest⟩ : row = r0 ∧
          rest.filter (fun r => decide (r.request_id = rid)) = [] := by
        injection h with h1 h2
        exact ⟨h1, h2⟩
      subst hrow
      unfold latestByRid
      simp only [List.foldl_cons]
      rw [if_pos hm]
      exact latestFold_no_match rid rest _ (by
        intro r hr hcontra
        have : r ∈ rest.filter (fun r => decide (r.request_id = rid)) := by
          simp [hr, hcontra]
        rw [hrest] at this
        simp at this)
    · rw [List.filter_cons_of_neg (by simpa using hm)] at h
      unfold latestByRid
      simp only [List.foldl_cons]
      rw [if_neg hm]
      exact ih r0 h

theorem latestByRid_of_filter_nil (rid : List Char) (db : List Row)
    (h : db.filter (fun r => decide (r.request_id = rid)) = []) :
    latestByRid db rid = none := by
  unfold latestByRid
  exact latestFold_no_match rid db none (by
    intro r hr hcontra
    have : r ∈ db.filter (fun r => decide (r.request_id = rid)) := by
      simp [hr, hcontra]
    rw [h] at this
    simp at this)

theorem filter_map_update (rid : List Char) (g : Row → Row)
    (hg : ∀ r, (g r).request_id = r.request_id) :
    ∀ db : List Row,
      (db.map g).filter (fun r => decide (r.request_id = rid)) =
        (db.filter (fun r => decide (r.request_id = rid))).map g := by
  intro db
  induction db with
  | nil => rfl
  | cons row rest ih =>
    simp only [List.map_cons]
    by_cases hm : row.request_id = rid
    · rw [List.filter_cons_of_pos (by simp [hg, hm]),
        List.filter_cons_of_pos (by simpa using hm)]
      simp [ih]
    · rw [List.filter_cons_of_neg (by simp [hg, hm]),
        List.filter_cons_of_neg (by simpa using hm)]
      exact ih

theorem maxId_spec : ∀ (db : List Row) (r : Row), r ∈ db → r.id ≤ maxId db := by
  have haux : ∀ (db : List Row) (acc : Nat),
      acc ≤ List.foldl (fun a r => max a r.id) acc db ∧
      ∀ r ∈ db, r.id ≤ List.foldl (fun a r => max a r.id) acc db := by
    intro db
    induction db with
    | nil => intro acc; exact ⟨le_rfl, by simp⟩
    | cons row rest ih =>
      intro acc
      simp only [List.foldl_cons]
      obtain ⟨h1, h2⟩ := ih (max acc row.id)
      refine ⟨le_trans (Nat.le_max_left _ _) h1, ?_⟩
      intro r hr
      rcases List.mem_cons.mp hr with rfl | hr
      · exact le_trans (Nat.le_max_right _ _) h1
      · exact h2 r hr
  intro db r hr
  exact (haux db 0).2 r hr

theorem upsert_of_no_row (db : List Row) (rid : List Char) (f : OutcomeFields)
    (h : db.filter (fun r => decide (r.request_id = rid)) = []) :
    ∃ row1, upsert db rid f = db ++ [row1] ∧ row1.request_id = rid ∧
      fieldsOfRow row1 = f ∧ row1.id = maxId db + 1 := by
  unfold upsert
  rw [latestByRid_of_filter_nil rid db h]
  exact ⟨_, rfl, rfl, rfl, rfl⟩

theorem upsert_of_one_row (db : List Row) (rid : List Char) (f : OutcomeFields) (r0 : Row)
    (h : db.filter (fun r => decide (r.request_id = rid)) = [r0]) :
    upsert db rid f = db.map (fun r => if r.id = r0.id then applyFields r f else r) := by
  unfold upsert
  rw [latestByRid_of_filter_singleton rid db r0 h]

theorem update_preserves_rid (i : Nat) (f : OutcomeFields) (r : Row) :
    ((fun x => if x.id = i then applyFields x f else x) r).request_id = r.request_id := by
  by_cases h : r.id = i
  · show (if r.id = i then applyFields r f else r).request_id = r.request_id
    rw [if_pos h, applyFields_request_id]
  · show (if r.id = i then applyFields r f else r).request_id = r.request_id
    rw [if_neg h]

theorem mem_map_update_self (db : List Row) (f : OutcomeFields) (r : Row) (i : Nat)
    (hr : r ∈ db) (hi : r.id = i) :
    applyFields r f ∈ db.map (fun x => if x.id = i then applyFields x f else x) := by
  have h := List.mem_map_of_mem (fun x => if x.id = i then applyFields x f else x) hr
  have h2 : (fun x => if x.id = i then applyFields x f else x) r = applyFields r f := by
    show (if r.id = i then applyFields r f else r) = applyFields r f
    rw [if_pos hi]
  rw [h2] at h
  exact h

/-- C8: the final outcome upsert is idempotent per request id — running it
twice leaves exactly one row for that id, the second execution's fields win on
that row, an existing row is updated in place (the table does not grow), and a
missing row is inserted exactly once. -/
theorem c8_upsert_idempotent (db : List Row) (rid : List Char) (f1 f2 : OutcomeFields)
    (hcount : countRid db rid ≤ 1) :
    countRid (upsert (upsert db rid f1) rid f2) rid = 1 ∧
    (∃ r ∈ upsert (upsert db rid f1) rid f2, r.request_id = rid ∧ fieldsOfRow r = f2) ∧
    (upsert (upsert db rid f1) rid f2).length ≤ db.length + 1 ∧
    (countRid db rid = 1 → (upsert (upsert db rid f1) rid f2).length = db.length) := by
  cases hF : db.filter (fun r => decide (r.request_id = rid)) with
  | nil =>
    have hc0 : countRid db rid = 0 := by rw [countRid, hF]; rfl
    obtain ⟨row1, h1, hrid1, hf1, hid1⟩ := upsert_of_no_row db rid f1 hF
    have hfilter1 : (upsert db rid f1).filter (fun r => decide (r.request_id = rid)) =
        [row1] := by
      rw [h1, List.filter_append, hF, List.nil_append]
      rw [List.filter_cons_of_pos (by simp [hrid1])]
      rfl
    have h2 := upsert_of_one_row (upsert db rid f1) rid f2 row1 hfilter1
    refine ⟨?_, ?_, ?_, ?_⟩
    · rw [countRid, h2, filter_map_update rid _ (update_preserves_rid row1.id f2), hfilter1]
      rfl
    · refine ⟨applyFields row1 f2, ?_, ?_, fieldsOfRow_applyFields row1 f2⟩
      · rw [h2]
        exact mem_map_update_self _ f2 row1 row1.id (by rw [h1]; simp) rfl
      · rw [applyFields_request_id]
        exact hrid1
    · rw [h2, List.length_map, h1, List.length_append]
      simp
    · intro hc1
      rw [hc0] at hc1
      exact absurd hc1 (by norm_num)
  | cons r0 tail =>
    have htail : tail = [] := by
      have hlen : (r0 :: tail).length ≤ 1 := by
        have hc := hcount
        rw [countRid, hF] at hc
        exact hc
      simp only [List.length_cons] at hlen
      exact List.eq_nil_of_length_eq_zero (by omega)
    subst htail
    have hc1 : countRid db rid = 1 := by rw [countRid, hF]; rfl
    have hrid0 : r0.request_id = rid := by
      have hmem : r0 ∈ db.filter (fun r => decide (r.request_id = rid)) := by
        rw [hF]; simp
      simpa using List.of_mem_filter hmem
    have hmem0 : r0 ∈ db := List.mem_of_mem_filter (by rw [hF]; simp)
    have h1 := upsert_of_one_row db rid f1 r0 hF
    have hfilter1 : (upsert db rid f1).filter (fun r => decide (r.request_id = rid)) =
        [applyFields r0 f1] := by
      rw [h1, filter_map_update rid _ (update_preserves_rid r0.id f1), hF]
      simp
    have h2 := upsert_of_one_row (upsert db rid f1) rid f2 (applyFields r0 f1) hfilter1
    refine ⟨?_, ?_, ?_, ?_⟩
    · rw [countRid, h2,
        filter_map_update rid _ (update_preserves_rid (applyFields r0 f1).id f2), hfilter1]
      rfl
    · refine ⟨applyFields (applyFields r0 f1) f2, ?_, ?_, fieldsOfRow_applyFields _ f2⟩
      · rw [h2]
        refine mem_map_update_self _ f2 (applyFields r0 f1) (applyFields r0 f1).id ?_ rfl
        rw [h1]
        exact mem_map_update_self _ f1 r0 r0.id hmem0 rfl
      · rw [applyFields_request_id, applyFields_request_id]
        exact hrid0
    · rw [h2, List.length_map, h1, List.length_map]
      omega
    · intro _
      rw [h2, List.length_map, h1, List.length_map]

theorem c8_upsert_idempotent_witness :
    countRid ([] : List Row) (chars "r1") ≤ 1 ∧
    countRid (upsert (upsert ([] : List Row) (chars "r1")
      (OutcomeFields.mk (chars "__raw__") 0 7 [] none none false none none false none))
      (chars "r1")
      (OutcomeFields.mk (chars "__raw__") 0 7 [] none none true none none true none))
      (chars "r1") = 1 :=
  ⟨by norm_num [countRid],
    (c8_upsert_idempotent [] (chars "r1")
      (OutcomeFields.mk (chars "__raw__") 0 7 [] none none false none none false none)
      (OutcomeFields.mk (chars "__raw__") 0 7 [] none none true none none true none)
      (by norm_num [countRid])).1⟩

/-! ## Pipeline theorems -/

theorem latestFold_mem (rid : List Char) :
    ∀ (db : List Row) (acc : Option Row) (r : Row),
      List.foldl
        (fun acc r =>
          if r.request_id = rid then
            match acc with
            | none => some r
            | some best => if best.id ≤ r.id then some r else some best
          else acc)
        acc db = some r →
      acc = some r ∨ (r ∈ db ∧ r.request_id = rid) := by
  intro db
  induction db with
  | nil => intro acc r h; exact Or.inl h
  | cons row rest ih =>
    intro acc r h
    simp only [List.foldl_cons] at h
    rcases ih _ r h with hacc | hmem
    · by_cases hm : row.request_id = rid
      · rw [if_pos hm] at hacc
        cases acc with
        | none =>
          simp only [Option.some.injEq] at hacc
          subst hacc
          exact Or.inr ⟨by simp, hm⟩
        | some best =>
          change (if best.id ≤ row.id then some row else some best) = some r at hacc
          by_cases hle : best.id ≤ row.id
          · rw [if_pos hle] at hacc
            simp only [Option.some.injEq] at hacc
            subst hacc
            exact Or.inr ⟨by simp, hm⟩
          · rw [if_neg hle] at hacc
            exact Or.inl hacc
      · rw [if_neg hm] at hacc
        exact Or.inl hacc
    · exact Or.inr ⟨by simp [hmem.1], hmem.2⟩

theorem latestByRid_mem_rid (db : List Row) (rid : List Char) (r : Row)
    (h : latestByRid db rid = some r) : r ∈ db ∧ r.request_id = rid := by
  unfold latestByRid at h
  rcases latestFold_mem rid db none r h with hacc | hmem
  · exact absurd hacc (by simp)
  · exact hmem

theorem upsert_row_exists (db : List Row) (rid : List Char) (f : OutcomeFields) :
    ∃ r ∈ upsert db rid f, r.request_id = rid ∧ fieldsOfRow r = f := by
  unfold upsert
  cases hl : latestByRid db rid with
  | none =>
    exact ⟨applyFields
      { id := maxId db + 1
        request_id := rid
        prompt_slug := f.prompt_slug
        user_id := f.user_id
        chat_id := f.chat_id
        params := f.params
        rendered_system := none
        rendered_user := none
        llm_ok := false
        llm_error := none
        llm_response_text := none
        telegram_ok := false
        telegram_error := none } f,
      List.mem_append_right _ (by simp), rfl, rfl⟩
  | some existing =>
    obtain ⟨hmem, hrid⟩ := latestByRid_mem_rid db rid existing hl
    refine ⟨applyFields existing f, ?_, ?_, fieldsOfRow_applyFields existing f⟩
    · exact mem_map_update_self db f existing existing.id hmem rfl
    · rw [applyFields_request_id]
      exact hrid

/-- C5: for every inbound payload with both `prompt` and `prompt_id` absent,
the pipeline records an outcome row with `llm_ok = false` and the
missing-prompt-spec error text, and still reaches a terminal outcome row for
the request id. -/
theorem c5_missing_prompt_terminal (body : PBRequest) (env : PipelineEnv)
    (db : List Row) (rid : List Char)
    (hp : body.prompt = none) (hpid : body.prompt_id = none) :
    (processRequest body env).llm_ok = false ∧
    (processRequest body env).llm_error =
      some (chars "Either 'prompt' or 'prompt_id' must be provided") ∧
    (∃ r ∈ processAndPersist db rid body env, r.request_id = rid ∧
      r.llm_ok = false ∧
      r.llm_error = some (chars "Either 'prompt' or 'prompt_id' must be provided")) := by
  have hres : resolveStage body env = .done (chars "__raw__") none none
      env.llm_default_model 0.2 0
      (some (chars "Either 'prompt' or 'prompt_id' must be provided")) [] := by
    simp only [resolveStage, hp, hpid]
  have hproc : processRequest body env =
      { prompt_slug_for_log := chars "__raw__"
        rendered_system := none
        rendered_user := none
        llm_text := none
        llm_ok := false
        tg_ok := false
        llm_error := some (chars "Either 'prompt' or 'prompt_id' must be provided")
        tg_error := none
        llmCall := none
        storeLookups := []
        attempts := [.message FALLBACK_ERROR_TEXT] } := by
    simp only [processRequest, deliveryStage, hres]
  refine ⟨by rw [hproc], by rw [hproc], ?_⟩
  obtain ⟨r, hrmem, hrrid, hrf⟩ := upsert_row_exists db rid
    (outcomeOf body (processRequest body env))
  refine ⟨r, hrmem, hrrid, ?_, ?_⟩
  · have := congrArg OutcomeFields.llm_ok hrf
    simpa [fieldsOfRow, outcomeOf, hproc] using this
  · have := congrArg OutcomeFields.llm_error hrf
    simpa [fieldsOfRow, outcomeOf, hproc] using this

theorem c5_missing_prompt_terminal_witness :
    (PBRequest.mk none none none [] (chars "token") 7 none false none none none).prompt
        = none ∧
    (processRequest
      (PBRequest.mk none none none [] (chars "token") 7 none false none none none)
      (PipelineEnv.mk (fun _ => none) (.ok none) (.ok none) (some (chars "key"))
        (chars "gpt-4o-mini") (.ok (chars "hi")) (.ok []) (.ok ()) (.ok ()) (.ok ())
        (.ok ()) (chars "2025-01-01"))).llm_ok = false :=
  ⟨rfl,
    (c5_missing_prompt_terminal
      (PBRequest.mk none none none [] (chars "token") 7 none false none none none)
      (PipelineEnv.mk (fun _ => none) (.ok none) (.ok none) (some (chars "key"))
        (chars "gpt-4o-mini") (.ok (chars "hi")) (.ok []) (.ok ()) (.ok ()) (.ok ())
        (.ok ()) (chars "2025-01-01"))
      [] (chars "r") rfl rfl).1⟩

/-- C9: when both a literal `prompt` and a `promptId` are present, the pipeline
resolves from the literal prompt — the recorded slug is the `__raw__` marker
(not the given id), the prompt store is never queried, the rendered system/user
text comes from the request, and any LLM call made uses the per-call
model/temperature/maxTokens overrides or their defaults (the model override is
a truthiness fallback: an empty-string override also falls back to the
default model). -/
theorem c9_literal_prompt_precedence (body : PBRequest) (env : PipelineEnv)
    (p pid : List Char) (hp : body.prompt = some p) (_hpid : body.prompt_id = some pid) :
    (processRequest body env).prompt_slug_for_log = chars "__raw__" ∧
    (processRequest body env).storeLookups = [] ∧
    (processRequest body env).rendered_system = body.system ∧
    (processRequest body env).rendered_user = some p ∧
    (∀ args, (processRequest body env).llmCall = some args →
      args = CallArgs.mk
        (match body.model with
         | some m => if m = [] then env.llm_default_model else m
         | none => env.llm_default_model)
        body.system p
        (match body.temperature with | some t => t | none => 0.2)
        (match body.max_tokens with | some n => n | none => 0)) := by
  have hres : resolveStage body env = .done (chars "__raw__") body.system (some p)
      (match body.model with
       | some m => if m = [] then env.llm_default_model else m
       | none => env.llm_default_model)
      (match body.temperature with | some t => t | none => 0.2)
      (match body.max_tokens with | some n => n | none => 0) none [] := by
    simp only [resolveStage, hp]
  refine ⟨by simp only [processRequest, hres], by simp only [processRequest, hres],
    by simp only [processRequest, hres], by simp only [processRequest, hres], ?_⟩
  intro args harg
  simp only [processRequest, hres] at harg
  cases hk : env.llm_api_key with
  | none => simp only [hk] at harg; simp at harg
  | some key =>
    simp only [hk] at harg
    by_cases hkey : key = []
    · rw [if_pos hkey] at harg
      simp at harg
    · rw [if_neg hkey] at harg
      cases hl : env.llm with
      | ok t =>
        simp only [hl, Option.some.injEq] at harg
        rw [← harg]
      | error e =>
        simp only [hl, Option.some.injEq] at harg
        rw [← harg]

theorem c9_literal_prompt_precedence_witness :
    (PBRequest.mk (some (chars "Say hi")) (some (chars "sys")) (some (chars "daily"))
        [] (chars "token") 7 none false none none none).prompt = some (chars "Say hi") ∧
    (processRequest
      (PBRequest.mk (some (chars "Say hi")) (some (chars "sys")) (some (chars "daily"))
        [] (chars "token") 7 none false none none none)
      (PipelineEnv.mk (fun _ => none) (.ok none) (.ok none) (some (chars "key"))
        (chars "gpt-4o-mini") (.ok (chars "hi")) (.ok []) (.ok ()) (.ok ()) (.ok ())
        (.ok ()) (chars "2025-01-01"))).prompt_slug_for_log = chars "__raw__" :=
  ⟨rfl,
    (c9_literal_prompt_precedence
      (PBRequest.mk (some (chars "Say hi")) (some (chars "sys")) (some (chars "daily"))
        [] (chars "token") 7 none false none none none)
      (PipelineEnv.mk (fun _ => none) (.ok none) (.ok none) (some (chars "key"))
        (chars "gpt-4o-mini") (.ok (chars "hi")) (.ok []) (.ok ()) (.ok ()) (.ok ())
        (.ok ()) (chars "2025-01-01"))
      (chars "Say hi") (chars "daily") rfl rfl).1⟩

/-- C7 counterexample: for a request whose `promptId` is the unknown slug
`daily`, the outcome has `llm_ok = false` and an error mentioning the slug, but
the `HTTPException` skips the `elif not llm_ok` block, so no delivery at all —
in particular no fallback notice — is attempted before persisting. -/
theorem c7_counterexample :
    (processRequest
      (PBRequest.mk none none (some (chars "daily")) [] (chars "token") 7 none false
        none none none)
      (PipelineEnv.mk (fun _ => none) (.ok none) (.ok none) (some (chars "key"))
        (chars "gpt-4o-mini") (.ok (chars "hi")) (.ok []) (.ok ()) (.ok ()) (.ok ())
        (.ok ()) (chars "2025-01-01"))).llm_ok = false ∧
    (processRequest
      (PBRequest.mk none none (some (chars "daily")) [] (chars "token") 7 none false
        none none none)
      (PipelineEnv.mk (fun _ => none) (.ok none) (.ok none) (some (chars "key"))
        (chars "gpt-4o-mini") (.ok (chars "hi")) (.ok []) (.ok ()) (.ok ()) (.ok ())
        (.ok ()) (chars "2025-01-01"))).llm_error =
      some (chars "Unhandled error: 404: Prompt 'daily' not found") ∧
    (processRequest
      (PBRequest.mk none none (some (chars "daily")) [] (chars "token") 7 none false
        none none none)
      (PipelineEnv.mk (fun _ => none) (.ok none) (.ok none) (some (chars "key"))
        (chars "gpt-4o-mini") (.ok (chars "hi")) (.ok []) (.ok ()) (.ok ()) (.ok ())
        (.ok ()) (chars "2025-01-01"))).attempts = [] := by
  refine ⟨rfl, by decide, rfl⟩

/-- C7 (amended): for a `promptId` referencing an unknown slug, the outcome row
records `llm_ok = false` with an `Unhandled error: 404: Prompt '<slug>' not
found` message that mentions the slug, the recorded slug is the requested one,
and the pipeline attempts no delivery at all (the fallback notice included)
before persisting the terminal outcome row. -/
theorem c7_unknown_slug (body : PBRequest) (env : PipelineEnv) (db : List Row)
    (rid slug : List Char) (hp : body.prompt = none) (hpid : body.prompt_id = some slug)
    (hslug : slug ≠ []) (hstore : env.store slug = none) :
    (processRequest body env).llm_ok = false ∧
    (processRequest body env).llm_error =
      some (chars "Unhandled error: " ++
        (chars "404: Prompt '" ++ slug ++ chars "' not found")) ∧
    (∀ e, (processRequest body env).llm_error = some e → slug <:+: e) ∧
    (processRequest body env).attempts = [] ∧
    (processRequest body env).prompt_slug_for_log = slug ∧
    (∃ r ∈ processAndPersist db rid body env, r.request_id = rid ∧
      r.llm_ok = false ∧ r.prompt_slug = slug) := by
  have hres : resolveStage body env =
      .exc slug (chars "404: Prompt '" ++ slug ++ chars "' not found") := by
    simp only [resolveStage, hp, hpid]
    rw [if_neg hslug, hstore]
  have hproc : processRequest body env =
      { prompt_slug_for_log := slug
        rendered_system := none
        rendered_user := none
        llm_text := none
        llm_ok := false
        tg_ok := false
        llm_error := some (chars "Unhandled error: " ++
          (chars "404: Prompt '" ++ slug ++ chars "' not found"))
        tg_error := none
        llmCall := none
        storeLookups := [slug]
        attempts := [] } := by
    simp only [processRequest, hres]
  refine ⟨by rw [hproc], by rw [hproc], ?_, by rw [hproc], by rw [hproc], ?_⟩
  · intro e he
    rw [hproc] at he
    simp only [Option.some.injEq] at he
    subst he
    exact ⟨chars "Unhandled error: " ++ chars "404: Prompt '", chars "' not found", by
      simp [List.append_assoc]⟩
  · obtain ⟨r, hrmem, hrrid, hrf⟩ := upsert_row_exists db rid
      (outcomeOf body (processRequest body env))
    refine ⟨r, hrmem, hrrid, ?_, ?_⟩
    · have := congrArg OutcomeFields.llm_ok hrf
      simpa [fieldsOfRow, outcomeOf, hproc] using this
    · have := congrArg OutcomeFields.prompt_slug hrf
      simpa [fieldsOfRow, outcomeOf, hproc] using this

theorem c7_unknown_slug_witness :
    (chars "daily" : List Char) ≠ [] ∧
    (processRequest
      (PBRequest.mk none none (some (chars "daily")) [] (chars "token") 7 none false
        none none none)
      (PipelineEnv.mk (fun _ => none) (.ok none) (.ok none) (some (chars "key"))
        (chars "gpt-4o-mini") (.ok (chars "hi")) (.ok []) (.ok ()) (.ok ()) (.ok ())
        (.ok ()) (chars "2025-01-01"))).prompt_slug_for_log = chars "daily" :=
  ⟨by decide,
    (c7_unknown_slug
      (PBRequest.mk none none (some (chars "daily")) [] (chars "token") 7 none false
        none none none)
      (PipelineEnv.mk (fun _ => none) (.ok none) (.ok none) (some (chars "key"))
        (chars "gpt-4o-mini") (.ok (chars "hi")) (.ok []) (.ok ()) (.ok ()) (.ok ())
        (.ok ()) (chars "2025-01-01"))
      [] (chars "r") (chars "daily") rfl rfl (by decide) rfl).2.2.2.2.1⟩

/-- C6: when the LLM stage succeeds with non-empty text and the request asked
for a document (`send_pdf = true`), a PDF-rendering failure or a
document-delivery failure makes the pipeline fall through to plain-text
delivery of the same LLM output, keeping the earlier error as the
delivery-error context; if that text delivery succeeds, the recorded outcome
has `telegram_ok = true`. -/
theorem c6_document_fallback (body : PBRequest) (env : PipelineEnv)
    (p t key : List Char) (hp : body.prompt = some p)
    (hkey : env.llm_api_key = some key) (hkeyne : key ≠ [])
    (hllm : env.llm = .ok t) (ht : t ≠ [])
    (hpdf : body.send_pdf = true) (hsend : env.sendText = .ok ()) :
    (∀ e, env.pdf = .error e →
      (processRequest body env).llm_ok = true ∧
      (processRequest body env).tg_ok = true ∧
      (processRequest body env).tg_error = some (chars "PDF generation error: " ++ e) ∧
      (processRequest body env).attempts = [.message t] ∧
      (outcomeOf body (processRequest body env)).telegram_ok = true) ∧
    (∀ b de, env.pdf = .ok b → b ≠ [] → env.sendDoc = .error de →
      (processRequest body env).llm_ok = true ∧
      (processRequest body env).tg_ok = true ∧
      (processRequest body env).tg_error = some de ∧
      (processRequest body env).attempts =
        [.document (chars "DailyMind-" ++ env.today ++ chars ".pdf")
          (chars "Ваш прогноз"), .message t] ∧
      (outcomeOf body (processRequest body env)).telegram_ok = true) := by
  have hres : resolveStage body env = .done (chars "__raw__") body.system (some p)
      (match body.model with
       | some m => if m = [] then env.llm_default_model else m
       | none => env.llm_default_model)
      (match body.temperature with | some t => t | none => 0.2)
      (match body.max_tokens with | some n => n | none => 0) none [] := by
    simp only [resolveStage, hp]
  have hd1 : (processRequest body env).llm_ok = true ∧
      (processRequest body env).tg_ok = (deliveryStage body env true (some t)).1 ∧
      (processRequest body env).tg_error = (deliveryStage body env true (some t)).2.1 ∧
      (processRequest body env).attempts = (deliveryStage body env true (some t)).2.2 ∧
      (outcomeOf body (processRequest body env)).telegram_ok =
        (deliveryStage body env true (some t)).1 := by
    simp [processRequest, outcomeOf, hres, hkey, hkeyne, hllm]
  obtain ⟨hok, htg, hterr, hatt, houtc⟩ := hd1
  constructor
  · intro e hpdferr
    have hd : deliveryStage body env true (some t) =
        (true, some (chars "PDF generation error: " ++ e), [.message t]) := by
      simp [deliveryStage, ht, hpdf, hpdferr, hsend]
    rw [hd] at htg hterr hatt houtc
    exact ⟨hok, htg, hterr, hatt, houtc⟩
  · intro b de hpdfok hb hdoc
    have hd : deliveryStage body env true (some t) =
        (true, some de,
          [.document (chars "DailyMind-" ++ env.today ++ chars ".pdf")
            (chars "Ваш прогноз"), .message t]) := by
      simp [deliveryStage, ht, hpdf, hpdfok, hsend, hdoc,
        isEmpty_false_of_ne_nil hb]
    rw [hd] at htg hterr hatt houtc
    exact ⟨hok, htg, hterr, hatt, houtc⟩

theorem c6_document_fallback_witness :
    (PBRequest.mk (some (chars "Say hi")) none none [] (chars "token") 7 none true
        none none none).send_pdf = true ∧
    (processRequest
      (PBRequest.mk (some (chars "Say hi")) none none [] (chars "token") 7 none true
        none none none)
      (PipelineEnv.mk (fun _ => none) (.ok none) (.ok none) (some (chars "key"))
        (chars "gpt-4o-mini") (.ok (chars "hello")) (.error (chars "boom")) (.ok ())
        (.ok ()) (.ok ()) (.ok ()) (chars "2025-01-01"))).tg_ok = true :=
  ⟨rfl,
    ((c6_document_fallback
      (PBRequest.mk (some (chars "Say hi")) none none [] (chars "token") 7 none true
        none none none)
      (PipelineEnv.mk (fun _ => none) (.ok none) (.ok none) (some (chars "key"))
        (chars "gpt-4o-mini") (.ok (chars "hello")) (.error (chars "boom")) (.ok ())
        (.ok ()) (.ok ()) (.ok ()) (chars "2025-01-01"))
      (chars "Say hi") (chars "hello") (chars "key") rfl rfl (by decide) rfl (by decide)
      rfl rfl).1 (chars "boom") rfl).2.1⟩
